import Mathlib

set_option maxRecDepth 8000

/-!
Verification development for the skupperX VAN management-controller.

The definitions below are shallow embeddings of the JavaScript source of the
management controller and its shared modules:

* site-templates (HashOfData and the SHA-1 digest it relies on),
* the certificate-reconciler loops of compose.js (reschedule delays,
  secretAdded finalization),
* the claim server (processClaim, the member-completion slot),
* the deployment-state evaluator (site-deployment-state.js),
* the state-sync heartbeat reconciliation (state-sync.js),
* the backbone-link manager (reconcileBackboneConnections),
* the go-template expander (gotemplate.js).

JavaScript objects used as ordered string-keyed maps are modelled as
association lists with the insertion-order semantics of JS objects; database
tables are lists of rows; asynchronous external calls (AMQP requests, cluster
reads) are modelled as explicit oracles or recorded effect lists.
-/

/-! ## JS object helpers (string-keyed maps with insertion order) -/

/-- Lookup of a property on a JS object (first matching key). -/
def objLookup {β : Type} (o : List (String × β)) (k : String) : Option β :=
  match o with
  | [] => none
  | (k0, v) :: rest => if k0 = k then some v else objLookup rest k

/-- Property assignment on a JS object: overwrite in place, or append a new
key at the end (JS insertion-order semantics). -/
def objSet {β : Type} (o : List (String × β)) (k : String) (v : β) : List (String × β) :=
  match o with
  | [] => [(k, v)]
  | (k0, v0) :: rest => if k0 = k then (k0, v) :: rest else (k0, v0) :: objSet rest k v

/-- Property deletion on a JS object. -/
def objDelete {β : Type} (o : List (String × β)) (k : String) : List (String × β) :=
  match o with
  | [] => []
  | (k0, v0) :: rest => if k0 = k then rest else (k0, v0) :: objDelete rest k

/-- Object.keys. -/
def objKeys {β : Type} (o : List (String × β)) : List String :=
  o.map Prod.fst

/-! ## Reconciler loop rescheduling (compose.js)

Each certificate-reconciler loop sets an initial reschedule delay, overwrites
it with 0 when a row was processed, overwrites it with 10000 in the catch
block after a transaction error, and finally calls setTimeout with the
resulting delay.  The three mutually exclusive outcomes of one loop pass are
captured by LoopOutcome. -/

inductive LoopOutcome where
  | noRow : LoopOutcome
  | processed : LoopOutcome
  | txError : LoopOutcome
deriving DecidableEq, Repr

/-- compose.js processNewManagementControllers: initial delay 5000. -/
def processNewManagementControllersDelay : LoopOutcome → Nat
  | LoopOutcome.noRow => 5000
  | LoopOutcome.processed => 0
  | LoopOutcome.txError => 10000

/-- compose.js processNewBackbones: initial delay 2000. -/
def processNewBackbonesDelay : LoopOutcome → Nat
  | LoopOutcome.noRow => 2000
  | LoopOutcome.processed => 0
  | LoopOutcome.txError => 10000

/-- compose.js processNewAccessPoints: initial delay 2000. -/
def processNewAccessPointsDelay : LoopOutcome → Nat
  | LoopOutcome.noRow => 2000
  | LoopOutcome.processed => 0
  | LoopOutcome.txError => 10000

/-- compose.js processNewNetworks: initial delay 2000. -/
def processNewNetworksDelay : LoopOutcome → Nat
  | LoopOutcome.noRow => 2000
  | LoopOutcome.processed => 0
  | LoopOutcome.txError => 10000

/-- compose.js processNewInteriorSites: initial delay 2000. -/
def processNewInteriorSitesDelay : LoopOutcome → Nat
  | LoopOutcome.noRow => 2000
  | LoopOutcome.processed => 0
  | LoopOutcome.txError => 10000

/-- compose.js processNewInvitations: initial delay 2000. -/
def processNewInvitationsDelay : LoopOutcome → Nat
  | LoopOutcome.noRow => 2000
  | LoopOutcome.processed => 0
  | LoopOutcome.txError => 10000

/-- compose.js processNewMemberSites: initial delay 2000. -/
def processNewMemberSitesDelay : LoopOutcome → Nat
  | LoopOutcome.noRow => 2000
  | LoopOutcome.processed => 0
  | LoopOutcome.txError => 10000

/-- compose.js processNewNetworkCredentials: initial delay 2000. -/
def processNewNetworkCredentialsDelay : LoopOutcome → Nat
  | LoopOutcome.noRow => 2000
  | LoopOutcome.processed => 0
  | LoopOutcome.txError => 10000

/-- compose.js processNewCertificateRequests: initial delay 2000. -/
def processNewCertificateRequestsDelay : LoopOutcome → Nat
  | LoopOutcome.noRow => 2000
  | LoopOutcome.processed => 0
  | LoopOutcome.txError => 10000

/-! ## SHA-1 (the node:crypto primitive used by site-templates.js)

HashOfData feeds a string through createHash with the sha1 algorithm and
reads the hex digest.  SHA-1 is embedded here over byte lists, with 32-bit
words as Nat values reduced mod 2^32. -/

/-- Left rotation of a 32-bit word. -/
def rotl32 (k n : Nat) : Nat :=
  ((n <<< k) ||| (n >>> (32 - k))) % 4294967296

/-- SHA-1 round function, selected by round index. -/
def sha1F (i b c d : Nat) : Nat :=
  if i < 20 then (b &&& c) ||| ((b ^^^ 4294967295) &&& d)
  else if i < 40 then (b ^^^ c) ^^^ d
  else if i < 60 then ((b &&& c) ||| (b &&& d)) ||| (c &&& d)
  else (b ^^^ c) ^^^ d

/-- SHA-1 round constant, selected by round index. -/
def sha1K (i : Nat) : Nat :=
  if i < 20 then 1518500249
  else if i < 40 then 1859775393
  else if i < 60 then 2400959708
  else 3395469782

/-- Big-endian byte encoding of a value in n bytes. -/
def bytesBE (n v : Nat) : List Nat :=
  (List.range n).map (fun i => (v >>> ((n - 1 - i) * 8)) % 256)

/-- Big-endian 32-bit word from a list of bytes. -/
def wordOfBytes (bs : List Nat) : Nat :=
  bs.foldl (fun acc b => acc * 256 + b) 0

/-- The 16 message words of one 64-byte chunk. -/
def chunkWords (chunk : List Nat) : Array Nat :=
  (List.range 16).foldl (fun a i => a.push (wordOfBytes ((chunk.drop (4 * i)).take 4))) #[]

/-- Word expansion from 16 to 80 words. -/
def extendWords (ws : Array Nat) : Array Nat :=
  (List.range 64).foldl
    (fun a i =>
      let j := i + 16
      a.push (rotl32 1 (((a.getD (j - 3) 0) ^^^ (a.getD (j - 8) 0)) ^^^
                        ((a.getD (j - 14) 0) ^^^ (a.getD (j - 16) 0)))))
    ws

/-- One SHA-1 compression round. -/
def sha1Round (w : Array Nat) (st : Nat × Nat × Nat × Nat × Nat) (i : Nat) :
    Nat × Nat × Nat × Nat × Nat :=
  match st with
  | (a, b, c, d, e) =>
    let temp := (rotl32 5 a + sha1F i b c d + e + sha1K i + w.getD i 0) % 4294967296
    (temp, a, rotl32 30 b, c, d)

/-- Compression of one 64-byte chunk into the running state. -/
def sha1Chunk (h : Nat × Nat × Nat × Nat × Nat) (chunk : List Nat) :
    Nat × Nat × Nat × Nat × Nat :=
  let w := extendWords (chunkWords chunk)
  match h, (List.range 80).foldl (sha1Round w) h with
  | (h0, h1, h2, h3, h4), (a, b, c, d, e) =>
    ((h0 + a) % 4294967296, (h1 + b) % 4294967296, (h2 + c) % 4294967296,
     (h3 + d) % 4294967296, (h4 + e) % 4294967296)

/-- SHA-1 padding: a 0x80 byte, zeros to 56 mod 64, and the bit length. -/
def sha1Pad (msg : List Nat) : List Nat :=
  let k := (120 - ((msg.length + 1) % 64)) % 64
  msg ++ [128] ++ List.replicate k 0 ++ bytesBE 8 (msg.length * 8)

/-- Split a padded message into 64-byte chunks. -/
def chunksOf64 (l : List Nat) : List (List Nat) :=
  (List.range (l.length / 64)).map (fun i => (l.drop (64 * i)).take 64)

/-- SHA-1 initial state. -/
def sha1Init : Nat × Nat × Nat × Nat × Nat :=
  (1732584193, 4023233417, 2562383102, 271733878, 3285377520)

/-- Lower-case hex digit. -/
def hexDigit (n : Nat) : Char :=
  if n < 10 then Char.ofNat (48 + n) else Char.ofNat (87 + n)

/-- Eight hex digits of a 32-bit word, most significant first. -/
def hexWord (v : Nat) : List Char :=
  (List.range 8).map (fun i => hexDigit ((v >>> ((7 - i) * 4)) % 16))

/-- SHA-1 hex digest of a byte list. -/
def sha1HexOfBytes (msg : List Nat) : String :=
  match (chunksOf64 (sha1Pad msg)).foldl sha1Chunk sha1Init with
  | (h0, h1, h2, h3, h4) =>
    String.mk (hexWord h0 ++ hexWord h1 ++ hexWord h2 ++ hexWord h3 ++ hexWord h4)

/-- SHA-1 hex digest of the UTF-8 bytes of a string, as node:crypto computes
it for createHash(sha1).update(text).digest(hex). -/
def sha1Hex (s : String) : String :=
  sha1HexOfBytes (s.toUTF8.toList.map UInt8.toNat)

/-! ## HashOfData (site-templates.js) -/

/-- The ascending key sort performed by Object.keys(data) followed by
keys.sort() in HashOfData.  The keys of a JS object are duplicate-free, so
every comparison sort produces the one ascending arrangement; insertion sort
keeps the embedding kernel-reducible. -/
def sortJS (keys : List String) : List String :=
  keys.insertionSort (fun a b => a ≤ b)

/-- The concatenation text built by HashOfData: for each key in ascending
order, append the key and then its value. -/
def hashText (data : List (String × String)) : String :=
  (sortJS (data.map Prod.fst)).foldl
    (fun text key => text ++ key ++ ((objLookup data key).getD "")) ""

/-- site-templates.js HashOfData: SHA-1 hex digest of the sorted
key-value concatenation. -/
def HashOfData (data : List (String × String)) : String :=
  sha1Hex (hashText data)

/-! ## Backbone-link manager (backbone-links.js, reconcileBackboneConnections) -/

/-- A BackboneAccessPoints row, restricted to the columns the manager uses. -/
structure BLAccessPoint where
  id : String
  lifecycle : String
  kind : String
  interiorSite : String
  hostname : String
  port : String
deriving DecidableEq, Repr

/-- An InteriorSites row, restricted to the columns the manager uses. -/
structure BLInteriorSite where
  id : String
  backbone : String
deriving DecidableEq, Repr

/-- A Backbones row, restricted to the columns the manager uses. -/
structure BLBackbone where
  id : String
  lifecycle : String
deriving DecidableEq, Repr

/-- The database slice visible to the backbone-link manager. -/
structure BLDatabase where
  accessPoints : List BLAccessPoint
  interiorSites : List BLInteriorSite
  backbones : List BLBackbone
deriving DecidableEq, Repr

/-- The SELECT of reconcileBackboneConnections: access points joined to their
interior site and onward to the backbone row, filtered on the access point
having Lifecycle ready and Kind manage.  The join on Backbones carries no
lifecycle condition. -/
def backboneLinksQuery (db : BLDatabase) : List (BLAccessPoint × String) :=
  db.accessPoints.flatMap (fun ap =>
    db.interiorSites.flatMap (fun site =>
      db.backbones.flatMap (fun bb =>
        if site.id = ap.interiorSite ∧ bb.id = site.backbone ∧
            ap.lifecycle = "ready" ∧ ap.kind = "manage"
        then [(ap, site.backbone)] else [])))

/-- The SELECT as the claim states it, with the additional condition that the
owning backbone has Lifecycle ready.  Stated for comparison with
backboneLinksQuery, which is the translation of the source. -/
def backboneLinksQueryClaimed (db : BLDatabase) : List (BLAccessPoint × String) :=
  db.accessPoints.flatMap (fun ap =>
    db.interiorSites.flatMap (fun site =>
      db.backbones.flatMap (fun bb =>
        if site.id = ap.interiorSite ∧ bb.id = site.backbone ∧
            ap.lifecycle = "ready" ∧ ap.kind = "manage" ∧ bb.lifecycle = "ready"
        then [(ap, site.backbone)] else [])))

/-- The db_rows accumulation loop: the first selected row per backbone wins;
later rows for an already-present backbone are ignored. -/
def firstPerBackbone (rows : List (BLAccessPoint × String)) : List (String × BLAccessPoint) :=
  rows.foldl
    (fun m row => if (objLookup m row.2).isSome then m else objSet m row.2 row.1) []

/-- One pass of reconcileBackboneConnections over the current session map,
given as the list of backbone ids with an open session.  Returns the new
session map together with the lists of backbone ids for which a session was
opened (in db_rows order) and closed (in current-map order). -/
def reconcileBackboneConnections (db : BLDatabase) (conns : List String) :
    List String × List String × List String :=
  let dbRows := firstPerBackbone (backboneLinksQuery db)
  let opened := (objKeys dbRows).filter (fun b => ¬ b ∈ conns)
  let closed := conns.filter (fun b => (objLookup dbRows b).isNone)
  let kept := conns.filter (fun b => (objLookup dbRows b).isSome)
  (kept ++ opened, opened, closed)

/-- A database in which the only ready manage access point belongs to a
backbone whose lifecycle is new, not ready. -/
def c8ExampleDb : BLDatabase :=
  { accessPoints := [{ id := "ap1", lifecycle := "ready", kind := "manage",
                       interiorSite := "s1", hostname := "h1", port := "55671" }],
    interiorSites := [{ id := "s1", backbone := "b1" }],
    backbones := [{ id := "b1", lifecycle := "new" }] }

/-! ## Claim server (claim-server.js, processClaim transaction) -/

/-- A MemberInvitations row, restricted to the columns processClaim uses.
JoinDeadline and InstanceLimit are nullable columns. -/
structure Invitation where
  id : String
  joinDeadline : Option Nat
  instanceLimit : Option Nat
  instanceCount : Nat
  memberOf : String
  memberClasses : List String
deriving DecidableEq, Repr

/-- A MemberSites row as inserted by processClaim. -/
structure MemberSiteRow where
  id : String
  name : String
  memberOf : String
  invitation : String
  siteClasses : List String
  metadataJson : String
deriving DecidableEq, Repr

/-- The database slice visible to the processClaim transaction, plus the
memberCompletions registrations (each registered slot starts with result,
error and callback all undefined). -/
structure ClaimDb where
  invitations : List Invitation
  memberSites : List MemberSiteRow
  completions : List String
deriving DecidableEq, Repr

/-- Result of the processClaim transaction. -/
structure ClaimTxResult where
  statusCode : Nat
  statusDescription : String
  memberId : Option String
  db : ClaimDb
deriving DecidableEq, Repr

/-- The guard on line 172 of claim-server.js:
claim.instancelimit is truthy (a null or zero limit is falsy in JS) and
claim.instancecount equals it. -/
def instanceLimitGuard (inv : Invitation) : Bool :=
  match inv.instanceLimit with
  | none => false
  | some l => decide (l ≠ 0) && decide (inv.instanceCount = l)

/-- The invitation filter of the SELECT: matching id and either a null
JoinDeadline or one strictly in the future. -/
def invitationSelectable (now : Nat) (claimId : String) (inv : Invitation) : Bool :=
  decide (inv.id = claimId) &&
    (match inv.joinDeadline with
     | none => true
     | some d => decide (now < d))

/-- The transaction of processClaim (claim-server.js lines 161 to 204):
select the invitation, reject when absent, expired or at its instance limit,
otherwise increment InstanceCount, insert the MemberSite row (newId stands
for the generated Id), and register the completion slot.  On the throw paths
the transaction rolls back and the reply is a 400. -/
def processClaim (now : Nat) (newId : String) (claimId : String) (name : String)
    (db : ClaimDb) : ClaimTxResult :=
  match db.invitations.filter (invitationSelectable now claimId) with
  | [claim] =>
    if instanceLimitGuard claim then
      { statusCode := 400,
        statusDescription := "Claim rejected: Instance limit on this claim has been reached",
        memberId := none, db := db }
    else
      { statusCode := 200, statusDescription := "OK", memberId := some newId,
        db :=
          { invitations := db.invitations.map
              (fun inv => if inv.id = claimId
                then { inv with instanceCount := claim.instanceCount + 1 } else inv),
            memberSites := db.memberSites ++
              [{ id := newId, name := name, memberOf := claim.memberOf,
                 invitation := claim.id, siteClasses := claim.memberClasses,
                 metadataJson := "\x7b\"name\":\"" ++ name ++ "\"\x7d" }],
            completions := db.completions ++ [newId] } }
  | _ =>
    { statusCode := 400,
      statusDescription := "Claim rejected: No valid invitation exists for the claim",
      memberId := none, db := db }

/-- A database holding one invitation whose InstanceLimit is the non-null
value 0 and whose InstanceCount has reached it. -/
def c1ExampleDb : ClaimDb :=
  { invitations := [{ id := "inv1", joinDeadline := none, instanceLimit := some 0,
                      instanceCount := 0, memberOf := "van1", memberClasses := ["cls"] }],
    memberSites := [], completions := [] }

/-! ## Member-completion slot (claim-server.js, blockForCompletion and
CompleteMember) -/

/-- One memberCompletions slot: completion result, completion error, and
whether blockForCompletion has installed its callback. -/
structure CompletionSlot (α ε : Type) where
  result : Option α
  error : Option ε
  hasCallback : Bool
deriving DecidableEq, Repr

/-- What the slot callback does when invoked: resolve the promise with the
result when present, otherwise reject with the error when present, otherwise
reject as a spurious callback. -/
inductive ClaimOutcome (α ε : Type) where
  | resolved : α → ClaimOutcome α ε
  | rejected : ε → ClaimOutcome α ε
  | spurious : ClaimOutcome α ε
deriving DecidableEq, Repr

/-- The slot for one member id plus the settled state of the promise that
blockForCompletion returns. -/
structure SlotState (α ε : Type) where
  slot : Option (CompletionSlot α ε)
  outcome : Option (ClaimOutcome α ε)
deriving DecidableEq, Repr

/-- The slot as processClaim registers it: result, error and callback all
undefined. -/
def slotStateInit {α ε : Type} : SlotState α ε :=
  { slot := some { result := none, error := none, hasCallback := false }, outcome := none }

/-- The body of the installed callback: read the slot, delete the entry, and
settle the promise from the stored result or error. -/
def invokeCallback {α ε : Type} (s : CompletionSlot α ε) : ClaimOutcome α ε :=
  match s.result with
  | some r => ClaimOutcome.resolved r
  | none =>
    match s.error with
    | some e => ClaimOutcome.rejected e
    | none => ClaimOutcome.spurious

/-- blockForCompletion: install the callback on the slot and, when a result
or error is already stored, invoke it immediately (deleting the entry). -/
def blockForCompletion {α ε : Type} (st : SlotState α ε) : SlotState α ε :=
  match st.slot with
  | none => st
  | some s =>
    let s1 : CompletionSlot α ε := { s with hasCallback := true }
    if s1.result.isSome || s1.error.isSome then
      { slot := none, outcome := some (invokeCallback s1) }
    else
      { st with slot := some s1 }

/-- CompleteMember after memberCompletion has produced a result-error pair:
store both on the slot and, when the callback is already installed, invoke
it (deleting the entry). -/
def completeMember {α ε : Type} (res : Option α) (err : Option ε)
    (st : SlotState α ε) : SlotState α ε :=
  match st.slot with
  | none => st
  | some s =>
    let s1 : CompletionSlot α ε := { s with result := res, error := err }
    if s1.hasCallback then
      { slot := none, outcome := some (invokeCallback s1) }
    else
      { st with slot := some s1 }

/-! ## Deployment-state evaluator (site-deployment-state.js) -/

/-- An InteriorSites row, restricted to the columns the evaluator reads. -/
structure DSInteriorSite where
  id : String
  lifecycle : String
  deploymentState : String
deriving DecidableEq, Repr

/-- A BackboneAccessPoints row, restricted to the columns the evaluator reads. -/
structure DSAccessPoint where
  id : String
  interiorSite : String
  kind : String
deriving DecidableEq, Repr

/-- An InterRouterLinks row. -/
structure DSLink where
  id : String
  connectingInteriorSite : String
  accessPoint : String
deriving DecidableEq, Repr

/-- The database slice visible to the deployment-state evaluator. -/
structure DSDatabase where
  sites : List DSInteriorSite
  accessPoints : List DSAccessPoint
  links : List DSLink
deriving DecidableEq, Repr

/-- The first SELECT of evaluateSingleSite_TX: links leaving the given site
joined through their access point to the owning interior site, filtered on
that site being deployed. -/
def deployedPeerLinks (db : DSDatabase) (siteId : String) : List String :=
  db.links.flatMap (fun l =>
    db.accessPoints.flatMap (fun ap =>
      db.sites.flatMap (fun s =>
        if l.accessPoint = ap.id ∧ ap.interiorSite = s.id ∧
            l.connectingInteriorSite = siteId ∧ s.deploymentState = "deployed"
        then [l.id] else [])))

/-- The second SELECT of evaluateSingleSite_TX: manage-kind access points on
the given site. -/
def manageAccessPoints (db : DSDatabase) (siteId : String) : List String :=
  db.accessPoints.flatMap (fun ap =>
    if ap.kind = "manage" ∧ ap.interiorSite = siteId then [ap.id] else [])

/-- The state computation of evaluateSingleSite_TX (the local variable
state): deployed when active; for a ready site, ready-automatic when a link
to a deployed peer exists, else ready-bootstrap when a manage access point
exists, else not-ready; not-ready otherwise. -/
def codeDeploymentState (db : DSDatabase) (site : DSInteriorSite) : String :=
  if site.lifecycle = "active" then "deployed"
  else if site.lifecycle = "ready" then
    if 0 < (deployedPeerLinks db site.id).length then "ready-automatic"
    else if 0 < (manageAccessPoints db site.id).length then "ready-bootstrap"
    else "not-ready"
  else "not-ready"

/-- evaluateSingleSite_TX: compute the state and issue the UPDATE only when
it differs from the stored DeploymentState.  The Bool records whether the
UPDATE was executed. -/
def evaluateSingleSite_TX (db : DSDatabase) (site : DSInteriorSite) :
    String × Bool × DSDatabase :=
  if codeDeploymentState db site ≠ site.deploymentState then
    (codeDeploymentState db site, true,
      { db with sites := db.sites.map (fun s =>
          if s.id = site.id then { s with deploymentState := codeDeploymentState db site }
          else s) })
  else (codeDeploymentState db site, false, db)

/-- The deployment state as the claim words it: first matching rule among
active implies deployed; ready with an InterRouterLink from this site whose
target access point belongs to a deployed site implies ready-automatic;
ready with a manage-kind access point on this site implies ready-bootstrap;
otherwise not-ready.  Stated for comparison with codeDeploymentState, which
is the translation of the source. -/
def specDeploymentState (db : DSDatabase) (site : DSInteriorSite) : String :=
  if site.lifecycle = "active" then "deployed"
  else if site.lifecycle = "ready" ∧
      ∃ l ∈ db.links, l.connectingInteriorSite = site.id ∧
        ∃ ap ∈ db.accessPoints, ap.id = l.accessPoint ∧
          ∃ s ∈ db.sites, s.id = ap.interiorSite ∧ s.deploymentState = "deployed"
  then "ready-automatic"
  else if site.lifecycle = "ready" ∧
      ∃ ap ∈ db.accessPoints, ap.interiorSite = site.id ∧ ap.kind = "manage"
  then "ready-bootstrap"
  else "not-ready"

/-! ## State-sync heartbeat reconciliation (state-sync.js, onHeartbeat) -/

/-- Reply body of a GET request, as read by the reconciliation loop.  A
getReply oracle value of none models a transport exception thrown by
amqp.Request. -/
structure GetReplyBody where
  statusCode : Nat
  hash : String
  data : String
deriving DecidableEq, Repr

/-- The toDeleteStateKeys object of onHeartbeat: every tracked remote key is
first flagged true, then every key of the incoming hashset is flagged
false. -/
def hbDeleteFlags (remoteState hashset : List (String × String)) : List (String × Bool) :=
  hashset.foldl (fun o kv => objSet o kv.1 false)
    ((objKeys remoteState).foldl (fun o k => objSet o k true) [])

/-- The toRequestStateKeys list of onHeartbeat: keys of the incoming hashset
whose advertised hash differs from the tracked remote hash (a key absent
from remoteState also differs). -/
def hbPullKeys (remoteState hashset : List (String × String)) : List String :=
  hashset.foldl
    (fun acc kv => if objLookup remoteState kv.1 ≠ some kv.2 then acc ++ [kv.1] else acc) []

/-- The deletion loop of onHeartbeat: every key flagged true produces an
onStateChange(peer, key, null, null) event and is dropped from
remoteState. -/
def hbDeletePhase (remoteState : List (String × String)) (flags : List (String × Bool)) :
    List (String × Option String × Option String) × List (String × String) :=
  flags.foldl
    (fun acc kv =>
      if kv.2 then (acc.1 ++ [(kv.1, none, none)], objDelete acc.2 kv.1) else acc)
    ([], remoteState)

/-- The pull loop of onHeartbeat: a GET is issued for each requested key; a
statusCode-200 reply produces an onStateChange(peer, key, hash, data) event
and sets remoteState[key] to the reply hash; any other reply raises inside
the try block, is caught, and changes nothing, as does a transport
exception. -/
def hbPullPhase (getReply : String → Option GetReplyBody)
    (remoteState : List (String × String)) (pullKeys : List String) :
    List (String × Option String × Option String) × List (String × String) :=
  pullKeys.foldl
    (fun acc k =>
      match getReply k with
      | some body =>
        if body.statusCode = 200 then
          (acc.1 ++ [(k, some body.hash, some body.data)], objSet acc.2 k body.hash)
        else acc
      | none => acc)
    ([], remoteState)

/-- state-sync.js onHeartbeat, reconciliation part for a known peer whose
heartbeat carries a hashset: build the flags and the pull-key list against
the tracked remoteState, run the deletions, then run the pulls.  The result
pairs the onStateChange events in call order with the final remoteState. -/
def onHeartbeatReconcile (remoteState hashset : List (String × String))
    (getReply : String → Option GetReplyBody) :
    List (String × Option String × Option String) × List (String × String) :=
  ((hbDeletePhase remoteState (hbDeleteFlags remoteState hashset)).1 ++
      (hbPullPhase getReply (hbDeletePhase remoteState (hbDeleteFlags remoteState hashset)).2
        (hbPullKeys remoteState hashset)).1,
   (hbPullPhase getReply (hbDeletePhase remoteState (hbDeleteFlags remoteState hashset)).2
      (hbPullKeys remoteState hashset)).2)

/-- The value remoteState[k] takes after the pull of key k, as a function of
the GET reply. -/
def pullResultLookup (getReply : String → Option GetReplyBody)
    (remoteState : List (String × String)) (k : String) : Option String :=
  match getReply k with
  | some body => if body.statusCode = 200 then some body.hash else objLookup remoteState k
  | none => objLookup remoteState k

/-- Scenario values: tracked remote state of peer s1. -/
def c3Rs : List (String × String) := [("link-L1", "H0")]

/-- Scenario values: incoming heartbeat hashset of peer s1. -/
def c3Hs : List (String × String) := [("link-L1", "H1")]

/-- Scenario values: the peer answers every GET with a 200 reply carrying
hash H1. -/
def c3Reply : String → Option GetReplyBody :=
  fun _ => some { statusCode := 200, hash := "H1", data := "DATA-L1" }

/-! ## Certificate finalization (compose.js, secretAdded) -/

/-- The eight entity tables a certificate request can reference. -/
inductive RefTable where
  | managementControllers : RefTable
  | backbones : RefTable
  | interiorSites : RefTable
  | backboneAccessPoints : RefTable
  | applicationNetworks : RefTable
  | networkCredentials : RefTable
  | memberInvitations : RefTable
  | memberSites : RefTable
deriving DecidableEq, Repr

/-- A CertificateRequests row: the id plus the eight nullable foreign keys
examined by the if chain of secretAdded, in source order. -/
structure CertRequestRow where
  id : String
  managementController : Option String
  backbone : Option String
  interiorSite : Option String
  accessPoint : Option String
  applicationNetwork : Option String
  networkCredential : Option String
  invitation : Option String
  site : Option String
deriving DecidableEq, Repr

/-- A row of one of the eight entity tables, restricted to the columns
secretAdded touches. -/
structure EntityRow where
  id : String
  name : String
  lifecycle : String
  certificate : Option String
deriving DecidableEq, Repr

/-- A TlsCertificates row as inserted by secretAdded. -/
structure TlsCertRow where
  id : String
  isCA : Bool
  objectName : String
  expiration : Option Nat
  renewalTime : Option Nat
  label : String
  signedBy : Option String
deriving DecidableEq, Repr

/-- The database slice visible to secretAdded. -/
structure ComposeDb where
  certRequests : List CertRequestRow
  tlsCertificates : List TlsCertRow
  tables : RefTable → List EntityRow

/-- The watched secret: its object name and its skx-issuerlink value. -/
structure SecretInfo where
  name : String
  issuerLink : Option String
deriving DecidableEq, Repr

/-- Expiration and renewal times read from the cluster certificate object. -/
structure CertStatus where
  notAfter : Option Nat
  renewalTime : Option Nat
deriving DecidableEq, Repr

/-- External calls recorded by the embedding of secretAdded. -/
inductive ComposeEffect where
  | applyIssuer : String → String → ComposeEffect
  | siteLifecycleChanged : String → String → ComposeEffect
  | siteCertificateChanged : String → ComposeEffect
  | accessCertificateChanged : String → ComposeEffect
  | completeMember : String → ComposeEffect
deriving DecidableEq, Repr

/-- The target chosen by the if chain of secretAdded: table, referenced row
id, the is_ca flag and the three alert flags. -/
structure RefTargetInfo where
  table : RefTable
  refId : String
  isCA : Bool
  alertSiteCertChanged : Bool
  alertAccessCertChanged : Bool
  alertMemberCompletion : Bool
deriving DecidableEq, Repr

/-- The ref_label of each table. -/
def refLabel : RefTable → String
  | RefTable.managementControllers => "Management Controller"
  | RefTable.backbones => "Backbone"
  | RefTable.interiorSites => "Backbone Site"
  | RefTable.backboneAccessPoints => "Access Point"
  | RefTable.applicationNetworks => "VAN"
  | RefTable.networkCredentials => "VAN Attach"
  | RefTable.memberInvitations => "Member Invitation"
  | RefTable.memberSites => "Member Site"

/-- Constructor for the target data of the if chain. -/
def mkRefTarget (t : RefTable) (rid : String)
    (ca siteAlert accessAlert memberAlert : Bool) : RefTargetInfo :=
  { table := t, refId := rid, isCA := ca, alertSiteCertChanged := siteAlert,
    alertAccessCertChanged := accessAlert, alertMemberCompletion := memberAlert }

/-- The if chain of secretAdded (compose.js lines 2680 to 2720), first
non-null foreign key wins; none set raises Unknown Target. -/
def refTarget (req : CertRequestRow) : Option RefTargetInfo :=
  match req.managementController with
  | some rid => some (mkRefTarget RefTable.managementControllers rid false false false false)
  | none =>
    match req.backbone with
    | some rid => some (mkRefTarget RefTable.backbones rid true false false false)
    | none =>
      match req.interiorSite with
      | some rid => some (mkRefTarget RefTable.interiorSites rid false true false false)
      | none =>
        match req.accessPoint with
        | some rid => some (mkRefTarget RefTable.backboneAccessPoints rid false false true false)
        | none =>
          match req.applicationNetwork with
          | some rid => some (mkRefTarget RefTable.applicationNetworks rid true false false false)
          | none =>
            match req.networkCredential with
            | some rid => some (mkRefTarget RefTable.networkCredentials rid false false false false)
            | none =>
              match req.invitation with
              | some rid => some (mkRefTarget RefTable.memberInvitations rid false false false false)
              | none =>
                match req.site with
                | some rid => some (mkRefTarget RefTable.memberSites rid false false false true)
                | none => none

/-- Result of secretAdded: the database after the transaction, the external
calls made inside the transaction, and the notifications made after the
COMMIT.  The SiteLifecycleChanged_TX call on interior sites is recorded as
an in-transaction effect; its own semantics is the deployment-state
evaluator embedded above. -/
structure SecretAddedResult where
  db : ComposeDb
  inTxEffects : List ComposeEffect
  postCommitEffects : List ComposeEffect

/-- compose.js secretAdded: look up the certificate request named by the
skx-dblink annotation; resolve its owning entity; insert the TlsCertificates
row (SignedBy taken from skx-issuerlink unless that is the literal root);
set the owning row to Lifecycle ready with Certificate pointing at the new
row; delete the request; apply an issuer object for CA credentials; alert
the sync module and, for member sites, claim completion after the commit.
Any failing path (absent request, Unknown Target, missing owning row) rolls
the transaction back and leaves the database unchanged. -/
def secretAdded (dblink : String) (secret : SecretInfo) (certStatus : CertStatus)
    (db : ComposeDb) : SecretAddedResult :=
  match db.certRequests.filter (fun r => decide (r.id = dblink)) with
  | [req] =>
    match refTarget req with
    | none => { db := db, inTxEffects := [], postCommitEffects := [] }
    | some info =>
      match (db.tables info.table).find? (fun row => decide (row.id = info.refId)) with
      | none => { db := db, inTxEffects := [], postCommitEffects := [] }
      | some row =>
        { db :=
            { certRequests := db.certRequests.filter (fun r => decide (¬ r.id = dblink)),
              tlsCertificates := db.tlsCertificates ++
                [{ id := dblink, isCA := info.isCA, objectName := secret.name,
                   expiration := certStatus.notAfter, renewalTime := certStatus.renewalTime,
                   label := refLabel info.table ++ ": " ++ row.name,
                   signedBy := if secret.issuerLink = some "root" then none
                               else secret.issuerLink }],
              tables := fun t =>
                if t = info.table then
                  (db.tables t).map (fun r =>
                    if r.id = info.refId then
                      { r with certificate := some dblink, lifecycle := "ready" }
                    else r)
                else db.tables t },
          inTxEffects :=
            (if info.isCA then [ComposeEffect.applyIssuer secret.name dblink] else []) ++
            (if info.alertSiteCertChanged then
              [ComposeEffect.siteLifecycleChanged info.refId "ready"] else []),
          postCommitEffects :=
            (if info.alertSiteCertChanged then [ComposeEffect.siteCertificateChanged dblink]
             else if info.alertAccessCertChanged then
               [ComposeEffect.accessCertificateChanged dblink]
             else []) ++
            (if info.alertMemberCompletion then [ComposeEffect.completeMember info.refId]
             else []) }
  | _ => { db := db, inTxEffects := [], postCommitEffects := [] }

/-- A concrete certificate request owned by a member site. -/
def c4Req : CertRequestRow :=
  { id := "req1", managementController := none, backbone := none, interiorSite := none,
    accessPoint := none, applicationNetwork := none, networkCredential := none,
    invitation := none, site := some "m1" }

/-- The target resolved for c4Req. -/
def c4Info : RefTargetInfo :=
  { table := RefTable.memberSites, refId := "m1", isCA := false,
    alertSiteCertChanged := false, alertAccessCertChanged := false,
    alertMemberCompletion := true }

/-- The member-site row owning c4Req. -/
def c4Row : EntityRow :=
  { id := "m1", name := "member-1", lifecycle := "cm_cert_created", certificate := none }

/-- A concrete database holding c4Req and the member-site row. -/
def c4Db : ComposeDb :=
  { certRequests := [c4Req],
    tlsCertificates := [],
    tables := fun t => match t with
      | RefTable.memberSites => [c4Row]
      | _ => [] }

/-- The watched secret resolving c4Req, signed by a backbone CA link. -/
def c4Secret : SecretInfo :=
  { name := "skx-member-req1", issuerLink := some "ca-77" }

/-- The certificate status read for c4Secret. -/
def c4Status : CertStatus :=
  { notAfter := some 1000, renewalTime := some 800 }

/-! ## Go-template expander (gotemplate.js)

Templates are processed as character lists.  JS values flowing through the
expander (the local scope object, the remote scope tree, condition values)
are modelled by JVal; undefined does not occur in the JSON-derived scopes
the callers pass.  Thrown exceptions are Except errors. -/

/-- A JS value as seen by the template expander. -/
inductive JVal where
  | jnull : JVal
  | jbool : Bool → JVal
  | jnum : Int → JVal
  | jstr : List Char → JVal
  | jobj : List (List Char × JVal) → JVal
deriving Repr

/-- The opening brace character of the directive markers. -/
def braceChar : Char := Char.ofNat 123

/-- The closing brace character of the directive markers. -/
def closeBraceChar : Char := Char.ofNat 125

/-- Token types of the template language. -/
inductive TokType where
  | literal : TokType
  | varTok : TokType
  | ifTok : TokType
  | elseTok : TokType
  | endTok : TokType
deriving DecidableEq, Repr

/-- One parsed token. -/
structure GoToken where
  ttype : TokType
  content : List Char
  trimLeft : Bool
deriving DecidableEq, Repr

/-- String.indexOf on character lists: index of the first occurrence of the
pattern. -/
def findSub (pat s : List Char) : Option Nat :=
  (List.range (s.length + 1)).find? (fun i => List.isPrefixOf pat (s.drop i))

/-- The whitespace class trimmed by the JS trim functions. -/
def jsWhitespace (c : Char) : Bool :=
  c = ' ' || c = '\t' || c = '\n' || c = '\r'

/-- String.trimLeft. -/
def trimLeftChars (s : List Char) : List Char :=
  s.dropWhile jsWhitespace

/-- String.trimRight. -/
def trimRightChars (s : List Char) : List Char :=
  (s.reverse.dropWhile jsWhitespace).reverse

/-- String.trim. -/
def trimChars (s : List Char) : List Char :=
  trimRightChars (trimLeftChars s)

/-- Token.Parse: consume one token from the front of the text, returning the
token and the remaining text.  Unterminated directives and parsing an empty
string raise. -/
def parseToken (text : List Char) : Except String (GoToken × List Char) :=
  if text = [] then Except.error "GoTemplate: Parsing unexpected empty string"
  else
    match findSub [braceChar, braceChar] text with
    | none => Except.ok ({ ttype := TokType.literal, content := text, trimLeft := false }, [])
    | some openPos =>
      if 0 < openPos then
        Except.ok ({ ttype := TokType.literal, content := text.take openPos,
                     trimLeft := false }, text.drop openPos)
      else
        match findSub [closeBraceChar, closeBraceChar] text with
        | none => Except.error "GoTemplate: Unterminated Directive"
        | some closePos =>
          let innerText0 := trimChars ((text.drop 2).take (closePos - 2))
          let afterText0 := text.drop (closePos + 2)
          let step1 :=
            match innerText0 with
            | '-' :: rest => (true, trimChars rest)
            | _ => (false, innerText0)
          let tl := step1.1
          let innerText1 := step1.2
          let step2 :=
            if innerText1.getLast? = some '-' then
              (trimChars (innerText1.take (innerText1.length - 1)), trimLeftChars afterText0)
            else (innerText1, afterText0)
          let innerText := step2.1
          let afterText := step2.2
          if List.isPrefixOf ['i', 'f', ' '] innerText then
            Except.ok ({ ttype := TokType.ifTok, content := innerText.drop 3,
                         trimLeft := tl }, afterText)
          else if List.isPrefixOf ['e', 'l', 's', 'e'] innerText then
            Except.ok ({ ttype := TokType.elseTok, content := [], trimLeft := tl }, afterText)
          else if List.isPrefixOf ['e', 'n', 'd'] innerText then
            Except.ok ({ ttype := TokType.endTok, content := [], trimLeft := tl }, afterText)
          else
            Except.ok ({ ttype := TokType.varTok, content := innerText,
                         trimLeft := tl }, afterText)

/-- The tokenization loop of Expand.  Each step consumes at least one
character, so fuel = length of the text suffices. -/
def tokenize : Nat → List Char → Except String (List GoToken)
  | _, [] => Except.ok []
  | 0, _ => Except.error "GoTemplate: tokenizer fuel exhausted"
  | Nat.succ fuel, text =>
    match parseToken text with
    | Except.error e => Except.error e
    | Except.ok (tok, rest) =>
      match tokenize fuel rest with
      | Except.error e => Except.error e
      | Except.ok toks => Except.ok (tok :: toks)

/-- The template tree built by Token.Arrange.  Literal and variable nodes
chain through next; an if node carries then clause, else clause and next;
else and end tokens remain as inert leaves (they expand to nothing).  The
nilN constructor stands for the JS undefined in a next, thenClause or
elseClause slot. -/
inductive TNode where
  | lit : List Char → TNode → TNode
  | varN : List Char → TNode → TNode
  | condN : List Char → TNode → TNode → TNode → TNode
  | elseN : TNode
  | endN : TNode
  | nilN : TNode
deriving DecidableEq, Repr

/-- How a call of Token.Arrange terminated. -/
inductive ArrangeEnd where
  | withElse : ArrangeEnd
  | withEnd : ArrangeEnd
  | withEOS : ArrangeEnd
deriving DecidableEq, Repr

/-- The node a token becomes when the token list is already empty. -/
def leafOf (t : GoToken) : TNode :=
  match t.ttype with
  | TokType.literal => TNode.lit t.content TNode.nilN
  | TokType.varTok => TNode.varN t.content TNode.nilN
  | TokType.ifTok => TNode.condN t.content TNode.nilN TNode.nilN TNode.nilN
  | TokType.elseTok => TNode.elseN
  | TokType.endTok => TNode.endN

/-- Token.Arrange: thread the token stream into a tree.  The JS method
mutates this.next and this.thenClause or this.elseClause and consumes from
the shared token list; here the constructed node, the termination marker and
the unconsumed tokens are returned.  The recursion depth is bounded by the
token count, so fuel = token count + 1 suffices; exhausted fuel raises. -/
def arrange : Nat → GoToken → List GoToken → Except String (TNode × ArrangeEnd × List GoToken)
  | 0, _, _ => Except.error "GoTemplate: arrange fuel exhausted"
  | Nat.succ fuel, t, tokenList =>
    if tokenList = [] then Except.ok (leafOf t, ArrangeEnd.withEOS, [])
    else if t.ttype = TokType.elseTok then Except.ok (TNode.elseN, ArrangeEnd.withElse, tokenList)
    else if t.ttype = TokType.endTok then Except.ok (TNode.endN, ArrangeEnd.withEnd, tokenList)
    else
      match tokenList with
      | [] => Except.error "GoTemplate: unreachable empty token list"
      | head :: rest =>
        match t.ttype with
        | TokType.literal =>
          match arrange fuel head rest with
          | Except.error e => Except.error e
          | Except.ok (hNode, res, rest2) =>
            Except.ok (TNode.lit
              (if head.trimLeft then trimRightChars t.content else t.content)
              hNode, res, rest2)
        | TokType.varTok =>
          match arrange fuel head rest with
          | Except.error e => Except.error e
          | Except.ok (hNode, res, rest2) =>
            Except.ok (TNode.varN t.content hNode, res, rest2)
        | TokType.ifTok =>
          match arrange fuel head rest with
          | Except.error e => Except.error e
          | Except.ok (thenNode, thenRes, rest2) =>
            match thenRes with
            | ArrangeEnd.withEOS =>
              Except.error "GoTemplate: Then clause not closed with End or Else"
            | ArrangeEnd.withElse =>
              match rest2 with
              | [] => Except.error "GoTemplate: shift from an empty token list"
              | e0 :: rest3 =>
                match arrange fuel e0 rest3 with
                | Except.error e => Except.error e
                | Except.ok (elseNode, elseRes, rest4) =>
                  if elseRes ≠ ArrangeEnd.withEnd then
                    Except.error "GoTemplate: Else clause did not close with End"
                  else
                    match rest4 with
                    | [] => Except.ok (TNode.condN t.content thenNode elseNode TNode.nilN,
                        ArrangeEnd.withEOS, [])
                    | n0 :: rest5 =>
                      match arrange fuel n0 rest5 with
                      | Except.error e => Except.error e
                      | Except.ok (nNode, nRes, rest6) =>
                        Except.ok (TNode.condN t.content thenNode elseNode nNode, nRes, rest6)
            | ArrangeEnd.withEnd =>
              match rest2 with
              | [] => Except.ok (TNode.condN t.content thenNode TNode.nilN TNode.nilN,
                  ArrangeEnd.withEOS, [])
              | n0 :: rest5 =>
                match arrange fuel n0 rest5 with
                | Except.error e => Except.error e
                | Except.ok (nNode, nRes, rest6) =>
                  Except.ok (TNode.condN t.content thenNode TNode.nilN nNode, nRes, rest6)
        | _ => Except.error "GoTemplate: unreachable token type"

/-- JS truthiness of a value. -/
def jsTruthy (v : JVal) : Bool :=
  match v with
  | JVal.jnull => false
  | JVal.jbool b => b
  | JVal.jnum n => decide (n ≠ 0)
  | JVal.jstr s => decide (s ≠ [])
  | JVal.jobj _ => true

/-- JS toString of a value, as invoked on truthy expansion results. -/
def jsToString (v : JVal) : List Char :=
  match v with
  | JVal.jnull => "null".toList
  | JVal.jbool b => if b then "true".toList else "false".toList
  | JVal.jnum n => (toString n).toList
  | JVal.jstr s => s
  | JVal.jobj _ => "[object Object]".toList

/-- Field access on an object value (keys of a JS object are unique). -/
def jvalField (fields : List (List Char × JVal)) (k : List Char) : JVal :=
  ((fields.find? (fun p => decide (p.1 = k))).map Prod.snd).getD JVal.jnull

/-- Field access through a JVal known to expose the key. -/
def jvalFieldOf (v : JVal) (k : List Char) : JVal :=
  match v with
  | JVal.jobj fields => jvalField fields k
  | _ => JVal.jnull

/-- Object.keys: the keys of an object, the empty list for a non-null
primitive, a TypeError for null. -/
def jsObjKeys : JVal → Except String (List (List Char))
  | JVal.jnull => Except.error "TypeError: Object.keys of null"
  | JVal.jobj fields => Except.ok (fields.map Prod.fst)
  | _ => Except.ok []

/-- path.split on the dot character. -/
def splitDot (s : List Char) : List (List Char) :=
  match s with
  | [] => [[]]
  | c :: rest =>
    let r := splitDot rest
    if c = '.' then [] :: r
    else
      match r with
      | h :: t => (c :: h) :: t
      | [] => [[c]]

/-- The unresolvable set: a JS object used as a set, insertion keeps first
position. -/
def unresInsert (u : List (List Char)) (c : List Char) : List (List Char) :=
  if c ∈ u then u else u ++ [c]

/-- The walk of the remote scope performed for a dollar path: None when some
element is missing from the keys of the current value. -/
def remoteWalk : List (List Char) → JVal → Except String (Option JVal)
  | [], v => Except.ok (some v)
  | e :: rest, v =>
    match jsObjKeys v with
    | Except.error msg => Except.error msg
    | Except.ok keys =>
      if e ∈ keys then remoteWalk rest (jvalFieldOf v e) else Except.ok none

/-- Token._value: resolve a dot path in the local scope or a dollar path by
walking the remote scope; an unresolved path is recorded in the unresolvable
set and yields the literal UNDEFINED[path] string, as does a content with
neither prefix (without recording). -/
def tokenValue (content : List Char) (localData : List (List Char × JVal)) (remoteData : JVal)
    (unres : List (List Char)) : Except String (JVal × List (List Char)) :=
  let path := content.drop 1
  let dflt := JVal.jstr ("UNDEFINED[".toList ++ content ++ "]".toList)
  match content with
  | '.' :: _ =>
    if path ∈ localData.map Prod.fst then
      Except.ok (jvalField localData path, unres)
    else
      Except.ok (dflt, unresInsert unres content)
  | '$' :: _ =>
    match remoteWalk (splitDot path) remoteData with
    | Except.error e => Except.error e
    | Except.ok none => Except.ok (dflt, unresInsert unres content)
    | Except.ok (some v) => Except.ok (v, unres)
  | _ => Except.ok (dflt, unres)

/-- Token.Expand on the arranged tree: literals emit their content, variable
tokens emit the value when truthy and the literal string undefined
otherwise, if tokens choose the then or else clause by truthiness (an absent
else clause emits nothing, like the inert else, end and nil leaves; an
absent then clause under a true condition is the JS TypeError), and every
node appends the expansion of its next node. -/
def nodeExpand : TNode → List (List Char × JVal) → JVal → List (List Char) →
    Except String (List Char × List (List Char))
  | TNode.lit content next, ld, rd, u =>
    (match nodeExpand next ld rd u with
     | Except.error e => Except.error e
     | Except.ok (s, u1) => Except.ok (content ++ s, u1))
  | TNode.varN content next, ld, rd, u =>
    (match tokenValue content ld rd u with
     | Except.error e => Except.error e
     | Except.ok (v, u1) =>
       match nodeExpand next ld rd u1 with
       | Except.error e => Except.error e
       | Except.ok (s, u2) =>
         Except.ok ((if jsTruthy v then jsToString v else "undefined".toList) ++ s, u2))
  | TNode.condN content thenC elseC next, ld, rd, u =>
    (match tokenValue content ld rd u with
     | Except.error e => Except.error e
     | Except.ok (cond, u1) =>
       match
         (if jsTruthy cond then
            (if thenC = TNode.nilN then Except.error "TypeError: thenClause is undefined"
             else nodeExpand thenC ld rd u1)
          else nodeExpand elseC ld rd u1) with
       | Except.error e => Except.error e
       | Except.ok (s, u2) =>
         match nodeExpand next ld rd u2 with
         | Except.error e => Except.error e
         | Except.ok (s2, u3) => Except.ok (s ++ s2, u3))
  | TNode.elseN, _, _, u => Except.ok ([], u)
  | TNode.endN, _, _, u => Except.ok ([], u)
  | TNode.nilN, _, _, u => Except.ok ([], u)

/-- gotemplate.js Expand: tokenize, arrange the stream into a tree, reject a
stream not ending at end-of-stream, and expand. -/
def Expand (template : List Char) (localData : List (List Char × JVal)) (remoteData : JVal)
    (unres : List (List Char)) : Except String (List Char × List (List Char)) :=
  match tokenize template.length template with
  | Except.error e => Except.error e
  | Except.ok [] => Except.error "TypeError: Arrange of undefined"
  | Except.ok (root :: restToks) =>
    match arrange (restToks.length + 1) root restToks with
    | Except.error e => Except.error e
    | Except.ok (rootNode, res, _) =>
      if res ≠ ArrangeEnd.withEOS then
        Except.error "GoTemplate: Template ended with spurious End or Else"
      else nodeExpand rootNode localData remoteData unres

/-! # Theorems -/

/-! ## Helper lemmas -/

/-- On objects related by a permutation whose keys are duplicate-free,
property lookup agrees. -/
theorem objLookup_perm {β : Type} {d d' : List (String × β)} (h : List.Perm d d')
    (nd : (d.map Prod.fst).Nodup) (k : String) : objLookup d k = objLookup d' k := by
  induction h with
  | nil => rfl
  | cons x h ih =>
    obtain ⟨k0, v0⟩ := x
    simp only [objLookup]
    by_cases hk : k0 = k
    · simp [hk]
    · simp only [hk, if_false]
      exact ih (by simpa using (List.Nodup.of_cons (by simpa using nd)))
  | swap x y l =>
    obtain ⟨kx, vx⟩ := x
    obtain ⟨ky, vy⟩ := y
    have hne : ky ≠ kx := by
      have hnd := nd
      simp only [List.map_cons, List.nodup_cons, List.mem_cons] at hnd
      exact fun hEq => hnd.1 (Or.inl hEq)
    simp only [objLookup]
    by_cases hky : ky = k
    · subst hky
      simp [Ne.symm hne]
    · by_cases hkx : kx = k
      · simp [hky, hkx]
      · simp [hky, hkx]
  | trans h1 h2 ih1 ih2 =>
    have nd2 : _ := ((h1.map Prod.fst).nodup_iff).mp nd
    exact (ih1 nd).trans (ih2 nd2)

/-- hashText is invariant under permutation of a duplicate-free object. -/
theorem hashText_perm (d d' : List (String × String)) (h : List.Perm d d')
    (nd : (d.map Prod.fst).Nodup) : hashText d = hashText d' := by
  unfold hashText sortJS
  have hs1 : List.Sorted (fun a b => a ≤ b) ((d.map Prod.fst).insertionSort (fun a b => a ≤ b)) :=
    List.sorted_insertionSort _ _
  have hs2 : List.Sorted (fun a b => a ≤ b) ((d'.map Prod.fst).insertionSort (fun a b => a ≤ b)) :=
    List.sorted_insertionSort _ _
  have hp : List.Perm ((d.map Prod.fst).insertionSort (fun a b => a ≤ b))
      ((d'.map Prod.fst).insertionSort (fun a b => a ≤ b)) :=
    (List.perm_insertionSort _ _).trans
      ((h.map Prod.fst).trans (List.perm_insertionSort _ _).symm)
  have hkeys : (d.map Prod.fst).insertionSort (fun a b => a ≤ b) =
      (d'.map Prod.fst).insertionSort (fun a b => a ≤ b) :=
    List.eq_of_perm_of_sorted hp hs1 hs2
  rw [hkeys]
  exact List.foldl_ext _ _ ""
    (fun acc key _ => by rw [objLookup_perm h nd key])

/-! ## C7: reconciler loop rescheduling delays -/

/-- C7: the claim that every per-kind certificate reconciler loop sleeps 2
seconds on an empty select is false: the management-controller loop
initializes its reschedule delay to 5000 milliseconds. -/
theorem C7_counterexample :
    processNewManagementControllersDelay LoopOutcome.noRow = 5000 ∧
    processNewManagementControllersDelay LoopOutcome.noRow ≠ 2000 := by
  exact ⟨rfl, by decide⟩

/-- C7 (amended): every per-kind certificate reconciler loop reschedules
itself immediately (0 ms) after processing a row and 10 seconds after a
transaction error; on an empty select the management-controllers loop
reschedules after 5 seconds and every other loop after 2 seconds. -/
theorem C7_reconciler_delays :
    processNewManagementControllersDelay LoopOutcome.noRow = 5000 ∧
    processNewBackbonesDelay LoopOutcome.noRow = 2000 ∧
    processNewAccessPointsDelay LoopOutcome.noRow = 2000 ∧
    processNewNetworksDelay LoopOutcome.noRow = 2000 ∧
    processNewInteriorSitesDelay LoopOutcome.noRow = 2000 ∧
    processNewInvitationsDelay LoopOutcome.noRow = 2000 ∧
    processNewMemberSitesDelay LoopOutcome.noRow = 2000 ∧
    processNewNetworkCredentialsDelay LoopOutcome.noRow = 2000 ∧
    processNewCertificateRequestsDelay LoopOutcome.noRow = 2000 ∧
    (∀ o : LoopOutcome,
      processNewManagementControllersDelay o = 10000 ∨ o ≠ LoopOutcome.txError) ∧
    processNewManagementControllersDelay LoopOutcome.processed = 0 ∧
    processNewManagementControllersDelay LoopOutcome.txError = 10000 ∧
    processNewBackbonesDelay LoopOutcome.processed = 0 ∧
    processNewBackbonesDelay LoopOutcome.txError = 10000 ∧
    processNewAccessPointsDelay LoopOutcome.processed = 0 ∧
    processNewAccessPointsDelay LoopOutcome.txError = 10000 ∧
    processNewNetworksDelay LoopOutcome.processed = 0 ∧
    processNewNetworksDelay LoopOutcome.txError = 10000 ∧
    processNewInteriorSitesDelay LoopOutcome.processed = 0 ∧
    processNewInteriorSitesDelay LoopOutcome.txError = 10000 ∧
    processNewInvitationsDelay LoopOutcome.processed = 0 ∧
    processNewInvitationsDelay LoopOutcome.txError = 10000 ∧
    processNewMemberSitesDelay LoopOutcome.processed = 0 ∧
    processNewMemberSitesDelay LoopOutcome.txError = 10000 ∧
    processNewNetworkCredentialsDelay LoopOutcome.processed = 0 ∧
    processNewNetworkCredentialsDelay LoopOutcome.txError = 10000 ∧
    processNewCertificateRequestsDelay LoopOutcome.processed = 0 ∧
    processNewCertificateRequestsDelay LoopOutcome.txError = 10000 := by
  refine ⟨rfl, rfl, rfl, rfl, rfl, rfl, rfl, rfl, rfl, ?_, rfl, rfl, rfl, rfl, rfl, rfl,
    rfl, rfl, rfl, rfl, rfl, rfl, rfl, rfl, rfl, rfl, rfl, rfl⟩
  intro o
  cases o with
  | noRow => exact Or.inr (by decide)
  | processed => exact Or.inr (by decide)
  | txError => exact Or.inl rfl

/-! ## C5: HashOfData -/

/-- C5: the claimed equivalence (equal hashes iff identical key-value pairs)
is false: the concatenation underlying HashOfData is not injective, so the
distinct objects with entries (ab, c) and (a, bc) hash identically. -/
theorem C5_counterexample :
    HashOfData [("ab", "c")] = HashOfData [("a", "bc")] ∧
    (("ab", "c") : String × String) ∈ [(("ab", "c") : String × String)] ∧
    (("ab", "c") : String × String) ∉ [(("a", "bc") : String × String)] := by
  refine ⟨?_, by decide, by decide⟩
  show sha1Hex (hashText [("ab", "c")]) = sha1Hex (hashText [("a", "bc")])
  have h : hashText [("ab", "c")] = hashText [("a", "bc")] := by decide
  rw [h]

/-- C5 (amended): HashOfData is the SHA-1 hex digest of the concatenation of
keys and values in ascending key order; objects containing identical
key-value pairs hash identically, but equal hashes do not guarantee
identical pairs. -/
theorem C5_hashOfData_perm (d d' : List (String × String)) (h : List.Perm d d')
    (nd : (d.map Prod.fst).Nodup) : HashOfData d = HashOfData d' := by
  unfold HashOfData
  rw [hashText_perm d d' h nd]

/-- C5 witness: a concrete permuted object pair hashing identically. -/
theorem C5_hashOfData_perm_witness :
    List.Perm [(("a" : String), ("1" : String)), ("b", "2")] [("b", "2"), ("a", "1")] ∧
    (([(("a" : String), ("1" : String)), ("b", "2")]).map Prod.fst).Nodup ∧
    HashOfData [("a", "1"), ("b", "2")] = HashOfData [("b", "2"), ("a", "1")] :=
  ⟨List.Perm.swap ("b", "2") ("a", "1") [], by decide,
    C5_hashOfData_perm _ _ (List.Perm.swap ("b", "2") ("a", "1") []) (by decide)⟩

/-! ## Helper lemmas on JS object maps -/

/-- Lookup after property assignment. -/
theorem objLookup_objSet {β : Type} (o : List (String × β)) (k k' : String) (v : β) :
    objLookup (objSet o k v) k' = if k = k' then some v else objLookup o k' := by
  induction o with
  | nil => simp [objSet, objLookup]
  | cons hd tl ih =>
    obtain ⟨k0, v0⟩ := hd
    by_cases h0 : k0 = k
    · subst h0
      by_cases h1 : k0 = k'
      · subst h1
        simp [objSet, objLookup]
      · simp [objSet, objLookup, h1]
    · by_cases h1 : k0 = k'
      · subst h1
        simp [objSet, objLookup, h0, Ne.symm h0]
      · simp [objSet, objLookup, h0, h1, ih]

/-- A lookup succeeds exactly on the keys of the object. -/
theorem objLookup_isSome_iff {β : Type} (o : List (String × β)) (k : String) :
    (objLookup o k).isSome ↔ k ∈ objKeys o := by
  induction o with
  | nil => simp [objLookup, objKeys]
  | cons hd tl ih =>
    obtain ⟨k0, v0⟩ := hd
    by_cases h : k0 = k
    · subst h
      simp [objLookup, objKeys]
    · simp [objLookup, objKeys, h, Ne.symm h, ih]

/-- Assigning a fresh key appends it to the key list. -/
theorem objKeys_objSet_of_not_mem {β : Type} (o : List (String × β)) (k : String) (v : β)
    (h : ¬ k ∈ objKeys o) : objKeys (objSet o k v) = objKeys o ++ [k] := by
  induction o with
  | nil => simp [objSet, objKeys]
  | cons hd tl ih =>
    obtain ⟨k0, v0⟩ := hd
    simp only [objKeys, List.map_cons, List.mem_cons] at h
    push_neg at h
    have ih2 := ih (by simpa [objKeys] using h.2)
    simp only [objKeys] at ih2
    simp [objSet, objKeys, Ne.symm h.1, ih2]

/-! ## Helper lemmas on the backbone-link manager -/

/-- Membership in the translated SELECT of reconcileBackboneConnections. -/
theorem mem_backboneLinksQuery (db : BLDatabase) (ap : BLAccessPoint) (bb : String) :
    (ap, bb) ∈ backboneLinksQuery db ↔
      ap ∈ db.accessPoints ∧ ap.lifecycle = "ready" ∧ ap.kind = "manage" ∧
      (∃ site, site ∈ db.interiorSites ∧ site.id = ap.interiorSite ∧ site.backbone = bb ∧
        ∃ b, b ∈ db.backbones ∧ b.id = bb) := by
  simp only [backboneLinksQuery, List.mem_flatMap]
  constructor
  · rintro ⟨ap', hap', site, hsite, b, hb, hmem⟩
    by_cases hc : site.id = ap'.interiorSite ∧ b.id = site.backbone ∧
        ap'.lifecycle = "ready" ∧ ap'.kind = "manage"
    · rw [if_pos hc] at hmem
      simp only [List.mem_singleton, Prod.mk.injEq] at hmem
      obtain ⟨hap_eq, hbb_eq⟩ := hmem
      subst hap_eq
      subst hbb_eq
      exact ⟨hap', hc.2.2.1, hc.2.2.2, site, hsite, hc.1, rfl, b, hb, hc.2.1⟩
    · rw [if_neg hc] at hmem
      simp at hmem
  · rintro ⟨hap, hlc, hk, site, hsite, hsid, hsbb, b, hb, hbid⟩
    refine ⟨ap, hap, site, hsite, b, hb, ?_⟩
    rw [if_pos ⟨hsid, hbid.trans hsbb.symm, hlc, hk⟩]
    simp [hsbb]

/-- The db_rows fold preserves duplicate-freedom of its key list. -/
theorem firstPerBackbone_fold_nodup (rows : List (BLAccessPoint × String))
    (m : List (String × BLAccessPoint)) (hm : (objKeys m).Nodup) :
    (objKeys (rows.foldl
      (fun m row => if (objLookup m row.2).isSome then m else objSet m row.2 row.1) m)).Nodup := by
  induction rows generalizing m with
  | nil => simpa using hm
  | cons r rows' ih =>
    simp only [List.foldl_cons]
    by_cases hs : (objLookup m r.2).isSome
    · rw [if_pos hs]
      exact ih m hm
    · rw [if_neg hs]
      refine ih _ ?_
      have hnot : ¬ r.2 ∈ objKeys m := fun hmem =>
        hs ((objLookup_isSome_iff m r.2).mpr hmem)
      rw [objKeys_objSet_of_not_mem m r.2 r.1 hnot]
      rw [List.nodup_append]
      refine ⟨hm, List.nodup_singleton _, ?_⟩
      intro a ha hb
      simp only [List.mem_singleton] at hb
      subst hb
      exact hnot ha

/-- Every entry of the db_rows fold comes from the selected rows. -/
theorem firstPerBackbone_fold_mem (rows : List (BLAccessPoint × String))
    (m : List (String × BLAccessPoint)) (S : List (BLAccessPoint × String))
    (hm : ∀ bb ap, objLookup m bb = some ap → (ap, bb) ∈ S)
    (hr : ∀ r ∈ rows, r ∈ S) :
    ∀ bb ap, objLookup (rows.foldl
      (fun m row => if (objLookup m row.2).isSome then m else objSet m row.2 row.1) m) bb =
        some ap → (ap, bb) ∈ S := by
  induction rows generalizing m with
  | nil => simpa using hm
  | cons r rows' ih =>
    simp only [List.foldl_cons]
    by_cases hs : (objLookup m r.2).isSome
    · rw [if_pos hs]
      exact ih m hm (fun x hx => hr x (List.mem_cons_of_mem r hx))
    · rw [if_neg hs]
      refine ih _ ?_ (fun x hx => hr x (List.mem_cons_of_mem r hx))
      intro bb ap hl
      rw [objLookup_objSet] at hl
      by_cases he : r.2 = bb
      · rw [if_pos he] at hl
        obtain rfl : r.1 = ap := by injection hl
        subst he
        exact hr r (List.mem_cons_self r rows')
      · rw [if_neg he] at hl
        exact hm bb ap hl

/-! ## C8: backbone-link manager reconcile cycle -/

/-- C8: the claim that the query restricts to access points whose owning
backbone is ready is false: with the only candidate backbone in lifecycle
new, the source query still selects the access point and a session is
opened for that backbone. -/
theorem C8_counterexample :
    c8ExampleDb.backbones.map BLBackbone.lifecycle = ["new"] ∧
    backboneLinksQueryClaimed c8ExampleDb = [] ∧
    (backboneLinksQuery c8ExampleDb).length = 1 ∧
    (reconcileBackboneConnections c8ExampleDb []).2.1 = ["b1"] := by
  refine ⟨rfl, rfl, rfl, rfl⟩

/-- C8 (amended): the reconcile query selects exactly the access points with
Lifecycle ready and Kind manage that join to an existing interior site and
an existing backbone row (with no condition on the backbone lifecycle); the
db_rows map retains at most one row per backbone, each entry being a
selected row; a session is opened for every backbone newly present and
closed for every backbone no longer present, and afterwards the session map
holds exactly the backbones of the selected set. -/
theorem C8_reconcile_characterization (db : BLDatabase) (conns : List String) :
    (∀ ap bb, (ap, bb) ∈ backboneLinksQuery db ↔
      ap ∈ db.accessPoints ∧ ap.lifecycle = "ready" ∧ ap.kind = "manage" ∧
      (∃ site, site ∈ db.interiorSites ∧ site.id = ap.interiorSite ∧ site.backbone = bb ∧
        ∃ b, b ∈ db.backbones ∧ b.id = bb)) ∧
    (objKeys (firstPerBackbone (backboneLinksQuery db))).Nodup ∧
    (∀ bb ap, objLookup (firstPerBackbone (backboneLinksQuery db)) bb = some ap →
      (ap, bb) ∈ backboneLinksQuery db) ∧
    (∀ b, b ∈ (reconcileBackboneConnections db conns).2.1 ↔
      b ∈ objKeys (firstPerBackbone (backboneLinksQuery db)) ∧ ¬ b ∈ conns) ∧
    (∀ b, b ∈ (reconcileBackboneConnections db conns).2.2 ↔
      b ∈ conns ∧ ¬ b ∈ objKeys (firstPerBackbone (backboneLinksQuery db))) ∧
    (∀ b, b ∈ (reconcileBackboneConnections db conns).1 ↔
      b ∈ objKeys (firstPerBackbone (backboneLinksQuery db))) := by
  refine ⟨mem_backboneLinksQuery db, ?_, ?_, ?_, ?_, ?_⟩
  · exact firstPerBackbone_fold_nodup _ [] (by simp [objKeys])
  · exact firstPerBackbone_fold_mem _ [] _ (by intro bb ap h; simp [objLookup] at h)
      (fun r hr => hr)
  · intro b
    simp only [reconcileBackboneConnections, List.mem_filter]
    constructor
    · rintro ⟨hmem, hdec⟩
      exact ⟨hmem, by simpa using hdec⟩
    · rintro ⟨hmem, hnot⟩
      exact ⟨hmem, by simpa using hnot⟩
  · intro b
    simp only [reconcileBackboneConnections, List.mem_filter]
    constructor
    · rintro ⟨hmem, hdec⟩
      refine ⟨hmem, fun hk => ?_⟩
      have := (objLookup_isSome_iff (firstPerBackbone (backboneLinksQuery db)) b).mpr hk
      simp only [Option.isNone_iff_eq_none] at hdec
      rw [hdec] at this
      simp at this
    · rintro ⟨hmem, hnot⟩
      refine ⟨hmem, ?_⟩
      cases hval : objLookup (firstPerBackbone (backboneLinksQuery db)) b with
      | none => rfl
      | some ap =>
        exact absurd ((objLookup_isSome_iff _ b).mp (by rw [hval]; rfl)) hnot
  · intro b
    simp only [reconcileBackboneConnections, List.mem_append, List.mem_filter]
    constructor
    · rintro (⟨hb, hdec⟩ | ⟨hk, hdec⟩)
      · exact (objLookup_isSome_iff _ b).mp hdec
      · exact hk
    · intro hk
      by_cases hc : b ∈ conns
      · exact Or.inl ⟨hc, (objLookup_isSome_iff _ b).mpr hk⟩
      · exact Or.inr ⟨hk, by simpa using hc⟩

/-! ## C1: claim assertion at the instance limit -/

/-- C1: the code evaluated at the failing input.  For an invitation with the
non-null InstanceLimit 0 (whose InstanceCount 0 has therefore reached it),
the guard treats the zero limit as falsy, so processClaim accepts the claim
with status 200, inserts a MemberSite row and increments InstanceCount past
the limit, where the claim requires a 400-class rejection with the database
unchanged. -/
theorem C1_limit_zero_claim_accepted :
    c1ExampleDb.invitations.map Invitation.instanceLimit = [some 0] ∧
    c1ExampleDb.invitations.map Invitation.instanceCount = [0] ∧
    c1ExampleDb.memberSites = [] ∧
    (processClaim 0 "m-new" "inv1" "member-1" c1ExampleDb).statusCode = 200 ∧
    (processClaim 0 "m-new" "inv1" "member-1" c1ExampleDb).db.memberSites.map
      MemberSiteRow.id = ["m-new"] ∧
    (processClaim 0 "m-new" "inv1" "member-1" c1ExampleDb).db.invitations.map
      Invitation.instanceCount = [1] := by
  refine ⟨rfl, rfl, rfl, ?_, ?_, ?_⟩ <;> rfl

/-! ## C9: completion-slot race -/

/-- C9: completing before the waiter attaches and completing after it
attaches produce the same final state: the promise settles from the stored
result or error and the slot entry is removed, so an early CompleteMember is
not lost. -/
theorem C9_completion_race {α ε : Type} (res : Option α) (err : Option ε)
    (h : res.isSome ∨ err.isSome) :
    blockForCompletion (completeMember res err (slotStateInit : SlotState α ε)) =
      completeMember res err (blockForCompletion (slotStateInit : SlotState α ε)) ∧
    (blockForCompletion (completeMember res err (slotStateInit : SlotState α ε))).slot = none ∧
    (blockForCompletion (completeMember res err (slotStateInit : SlotState α ε))).outcome =
      some (invokeCallback { result := res, error := err, hasCallback := true }) := by
  rcases res with _ | r
  · rcases err with _ | e
    · simp at h
    · simp [slotStateInit, blockForCompletion, completeMember, invokeCallback]
  · simp [slotStateInit, blockForCompletion, completeMember, invokeCallback]

/-- C9 witness: a concrete successful completion fired before the waiter. -/
theorem C9_completion_race_witness :
    ((some 3 : Option Nat).isSome ∨ (none : Option Nat).isSome) ∧
    (blockForCompletion (completeMember (some 3) (none : Option Nat)
        (slotStateInit : SlotState Nat Nat)) =
      completeMember (some 3) none (blockForCompletion (slotStateInit : SlotState Nat Nat)) ∧
    (blockForCompletion (completeMember (some 3) (none : Option Nat)
        (slotStateInit : SlotState Nat Nat))).slot = none ∧
    (blockForCompletion (completeMember (some 3) (none : Option Nat)
        (slotStateInit : SlotState Nat Nat))).outcome =
      some (invokeCallback { result := some 3, error := none, hasCallback := true })) :=
  ⟨Or.inl rfl, C9_completion_race (some 3) none (Or.inl rfl)⟩

/-! ## Helper lemmas on the deployment-state evaluator -/

/-- The deployed-peer SELECT returns a row exactly when a link from the site
reaches an access point on a deployed site. -/
theorem deployedPeerLinks_pos_iff (db : DSDatabase) (siteId : String) :
    0 < (deployedPeerLinks db siteId).length ↔
      ∃ l ∈ db.links, l.connectingInteriorSite = siteId ∧
        ∃ ap ∈ db.accessPoints, ap.id = l.accessPoint ∧
          ∃ s ∈ db.sites, s.id = ap.interiorSite ∧ s.deploymentState = "deployed" := by
  constructor
  · intro h
    obtain ⟨x, hx⟩ := List.exists_mem_of_ne_nil _ (List.length_pos.mp h)
    simp only [deployedPeerLinks, List.mem_flatMap] at hx
    obtain ⟨l, hl, ap, hap, s, hs, hmem⟩ := hx
    by_cases hc : l.accessPoint = ap.id ∧ ap.interiorSite = s.id ∧
        l.connectingInteriorSite = siteId ∧ s.deploymentState = "deployed"
    · exact ⟨l, hl, hc.2.2.1, ap, hap, hc.1.symm, s, hs, hc.2.1.symm, hc.2.2.2⟩
    · rw [if_neg hc] at hmem
      simp at hmem
  · rintro ⟨l, hl, hconn, ap, hap, hapid, s, hs, hsid, hdep⟩
    have hmem : l.id ∈ deployedPeerLinks db siteId := by
      simp only [deployedPeerLinks, List.mem_flatMap]
      refine ⟨l, hl, ap, hap, s, hs, ?_⟩
      rw [if_pos ⟨hapid.symm, hsid.symm, hconn, hdep⟩]
      simp
    exact List.length_pos_of_mem hmem

/-- The manage-access-point SELECT returns a row exactly when a manage-kind
access point sits on the site. -/
theorem manageAccessPoints_pos_iff (db : DSDatabase) (siteId : String) :
    0 < (manageAccessPoints db siteId).length ↔
      ∃ ap ∈ db.accessPoints, ap.interiorSite = siteId ∧ ap.kind = "manage" := by
  constructor
  · intro h
    obtain ⟨x, hx⟩ := List.exists_mem_of_ne_nil _ (List.length_pos.mp h)
    simp only [manageAccessPoints, List.mem_flatMap] at hx
    obtain ⟨ap, hap, hmem⟩ := hx
    by_cases hc : ap.kind = "manage" ∧ ap.interiorSite = siteId
    · exact ⟨ap, hap, hc.2, hc.1⟩
    · rw [if_neg hc] at hmem
      simp at hmem
  · rintro ⟨ap, hap, hsite, hkind⟩
    have hmem : ap.id ∈ manageAccessPoints db siteId := by
      simp only [manageAccessPoints, List.mem_flatMap]
      exact ⟨ap, hap, by rw [if_pos ⟨hkind, hsite⟩]; simp⟩
    exact List.length_pos_of_mem hmem

/-- The state computed by the source agrees with the rule list of the
specification. -/
theorem codeDeploymentState_eq_spec (db : DSDatabase) (site : DSInteriorSite) :
    codeDeploymentState db site = specDeploymentState db site := by
  have e1 := deployedPeerLinks_pos_iff db site.id
  have e2 := manageAccessPoints_pos_iff db site.id
  unfold codeDeploymentState specDeploymentState
  by_cases h1 : site.lifecycle = "active"
  · simp [h1]
  · by_cases h2 : site.lifecycle = "ready"
    · by_cases h3 : 0 < (deployedPeerLinks db site.id).length
      · simp [h1, h2, h3, ← e1]
      · by_cases h4 : 0 < (manageAccessPoints db site.id).length
        · simp [h1, h2, h3, h4, ← e1, ← e2]
        · simp [h1, h2, h3, h4, ← e1, ← e2]
    · simp [h1, h2]

/-! ## C2: deployment-state evaluation -/

/-- C2: evaluateSingleSite_TX computes the new DeploymentState by the first
matching rule of the claim (active implies deployed; ready with a link to a
deployed peer implies ready-automatic; ready with a manage access point
implies ready-bootstrap; otherwise not-ready) and executes the UPDATE
exactly when the computed state differs from the stored one, leaving the
database untouched otherwise. -/
theorem C2_deployment_state (db : DSDatabase) (site : DSInteriorSite) :
    (evaluateSingleSite_TX db site).1 = specDeploymentState db site ∧
    ((evaluateSingleSite_TX db site).2.1 = true ↔
      specDeploymentState db site ≠ site.deploymentState) ∧
    ((evaluateSingleSite_TX db site).2.1 = false →
      (evaluateSingleSite_TX db site).2.2 = db) ∧
    ((evaluateSingleSite_TX db site).2.1 = true →
      ((evaluateSingleSite_TX db site).2.2).sites =
        db.sites.map (fun s =>
          if s.id = site.id then { s with deploymentState := specDeploymentState db site }
          else s)) := by
  have hcs := codeDeploymentState_eq_spec db site
  unfold evaluateSingleSite_TX
  rw [hcs]
  by_cases h : specDeploymentState db site ≠ site.deploymentState
  · rw [if_pos h]
    exact ⟨rfl, ⟨fun _ => h, fun _ => rfl⟩, fun hf => by simp at hf, fun _ => rfl⟩
  · rw [if_neg h]
    exact ⟨rfl, ⟨fun hf => by simp at hf, fun hne => (h hne).elim⟩, fun _ => rfl,
      fun hf => by simp at hf⟩

/-! ## Further helper lemmas on JS object maps -/

/-- A successful lookup yields a member pair. -/
theorem mem_of_objLookup_eq_some {β : Type} {o : List (String × β)} {k : String} {v : β}
    (h : objLookup o k = some v) : (k, v) ∈ o := by
  induction o with
  | nil => simp [objLookup] at h
  | cons hd tl ih =>
    obtain ⟨k0, v0⟩ := hd
    simp only [objLookup] at h
    by_cases h0 : k0 = k
    · rw [if_pos h0] at h
      obtain rfl : v0 = v := by injection h
      subst h0
      exact List.mem_cons_self _ _
    · rw [if_neg h0] at h
      exact List.mem_cons_of_mem _ (ih h)

/-- On duplicate-free keys, a member pair is found by lookup. -/
theorem objLookup_eq_some_of_mem_nodup {β : Type} {o : List (String × β)} {k : String} {v : β}
    (hm : (k, v) ∈ o) (nd : (objKeys o).Nodup) : objLookup o k = some v := by
  induction o with
  | nil => simp at hm
  | cons hd tl ih =>
    obtain ⟨k0, v0⟩ := hd
    have hk0 : ¬ k0 ∈ objKeys tl := by
      simp only [objKeys, List.map_cons, List.nodup_cons] at nd
      exact nd.1
    have nd' : (objKeys tl).Nodup := by
      simp only [objKeys, List.map_cons, List.nodup_cons] at nd
      exact nd.2
    rcases List.mem_cons.mp hm with hEq | hm'
    · cases hEq
      simp [objLookup]
    · have hkmem : k ∈ objKeys tl := by
        simpa [objKeys] using List.mem_map_of_mem Prod.fst hm'
      have hne : ¬ k0 = k := fun hk => hk0 (hk ▸ hkmem)
      simp [objLookup, hne, ih hm' nd']

/-- Setting a key already present leaves the key list unchanged. -/
theorem objKeys_objSet_of_mem {β : Type} (o : List (String × β)) (k : String) (v : β)
    (h : k ∈ objKeys o) : objKeys (objSet o k v) = objKeys o := by
  induction o with
  | nil => simp [objKeys] at h
  | cons hd tl ih =>
    obtain ⟨k0, v0⟩ := hd
    by_cases h0 : k0 = k
    · simp [objSet, h0, objKeys]
    · have hmem := h
      simp only [objKeys, List.map_cons, List.mem_cons] at hmem
      have h' : k ∈ objKeys tl := by
        rcases hmem with hEq | hm
        · exact absurd hEq.symm h0
        · simpa [objKeys] using hm
      have ih2 := ih h'
      simp only [objKeys] at ih2
      simp [objSet, h0, objKeys, ih2]

/-- objSet preserves duplicate-freedom of the key list. -/
theorem objKeys_objSet_nodup {β : Type} (o : List (String × β)) (k : String) (v : β)
    (nd : (objKeys o).Nodup) : (objKeys (objSet o k v)).Nodup := by
  by_cases h : k ∈ objKeys o
  · rw [objKeys_objSet_of_mem o k v h]
    exact nd
  · rw [objKeys_objSet_of_not_mem o k v h]
    rw [List.nodup_append]
    refine ⟨nd, List.nodup_singleton _, ?_⟩
    intro a ha hb
    simp only [List.mem_singleton] at hb
    subst hb
    exact h ha

/-- The key list of a deletion result is a sublist of the original keys. -/
theorem objKeys_objDelete_sublist {β : Type} (o : List (String × β)) (k : String) :
    (objKeys (objDelete o k)).Sublist (objKeys o) := by
  induction o with
  | nil => simp [objDelete, objKeys]
  | cons hd tl ih =>
    obtain ⟨k0, v0⟩ := hd
    by_cases h : k0 = k
    · simp only [objDelete, if_pos h, objKeys, List.map_cons]
      exact List.sublist_cons_self _ _
    · simp only [objDelete, if_neg h, objKeys, List.map_cons]
      exact List.Sublist.cons₂ _ ih

/-- Lookup after deletion on duplicate-free keys. -/
theorem objLookup_objDelete {β : Type} (o : List (String × β)) (k k' : String)
    (nd : (objKeys o).Nodup) :
    objLookup (objDelete o k) k' = if k = k' then none else objLookup o k' := by
  induction o with
  | nil => simp [objDelete, objLookup]
  | cons hd tl ih =>
    obtain ⟨k0, v0⟩ := hd
    have hk0 : ¬ k0 ∈ objKeys tl := by
      simp only [objKeys, List.map_cons, List.nodup_cons] at nd
      exact nd.1
    have nd' : (objKeys tl).Nodup := by
      simp only [objKeys, List.map_cons, List.nodup_cons] at nd
      exact nd.2
    by_cases h0 : k0 = k
    · subst h0
      have hdel : objDelete ((k0, v0) :: tl) k0 = tl := by
        simp [objDelete]
      rw [hdel]
      by_cases h1 : k0 = k'
      · subst h1
        rw [if_pos rfl]
        cases hv : objLookup tl k0 with
        | none => rfl
        | some v =>
          exact absurd ((objLookup_isSome_iff tl k0).mp (by rw [hv]; rfl)) hk0
      · rw [if_neg h1]
        simp [objLookup, h1]
    · simp only [objDelete, if_neg h0]
      by_cases h1 : k0 = k'
      · subst h1
        rw [if_neg (fun hk => h0 hk.symm)]
        simp [objLookup]
      · simp [objLookup, h1, ih nd']

/-! ## Helper lemmas on heartbeat reconciliation -/

/-- Lookup in the first flag pass: keys of the tracked remote state map to
true. -/
theorem foldl_objSet_true_lookup (ks : List String) (o : List (String × Bool)) (k : String) :
    objLookup (ks.foldl (fun o k => objSet o k true) o) k =
      if k ∈ ks then some true else objLookup o k := by
  induction ks generalizing o with
  | nil => simp
  | cons k0 ks' ih =>
    simp only [List.foldl_cons]
    rw [ih]
    by_cases h : k ∈ ks'
    · simp [h]
    · by_cases h0 : k0 = k
      · subst h0
        simp [h, objLookup_objSet]
      · simp [h, Ne.symm h0, objLookup_objSet, h0]

/-- Cons unfolding for key-list membership. -/
theorem mem_objKeys_cons {β : Type} (k k0 : String) (v0 : β) (tl : List (String × β)) :
    (k ∈ objKeys ((k0, v0) :: tl)) ↔ k = k0 ∨ k ∈ objKeys tl := by
  simp [objKeys]

/-- Lookup in the second flag pass: keys of the hashset map to false. -/
theorem foldl_objSet_false_lookup (hs : List (String × String)) (o : List (String × Bool))
    (k : String) :
    objLookup (hs.foldl (fun o kv => objSet o kv.1 false) o) k =
      if k ∈ objKeys hs then some false else objLookup o k := by
  induction hs generalizing o with
  | nil => simp [objKeys]
  | cons kv hs' ih =>
    obtain ⟨k0, v0⟩ := kv
    simp only [List.foldl_cons]
    rw [ih]
    by_cases h : k ∈ objKeys hs'
    · rw [if_pos h, if_pos ((mem_objKeys_cons k k0 v0 hs').mpr (Or.inr h))]
    · rw [if_neg h]
      by_cases h0 : k0 = k
      · subst h0
        rw [objLookup_objSet, if_pos rfl,
          if_pos ((mem_objKeys_cons k0 k0 v0 hs').mpr (Or.inl rfl))]
      · have hnot : ¬ k ∈ objKeys ((k0, v0) :: hs') := by
          rw [mem_objKeys_cons]
          rintro (hEq | hm)
          · exact h0 hEq.symm
          · exact h hm
        rw [objLookup_objSet, if_neg h0, if_neg hnot]

/-- Lookup in the completed toDeleteStateKeys object. -/
theorem hbDeleteFlags_lookup (rs hs : List (String × String)) (k : String) :
    objLookup (hbDeleteFlags rs hs) k =
      if k ∈ objKeys hs then some false
      else if k ∈ objKeys rs then some true
      else none := by
  unfold hbDeleteFlags
  rw [foldl_objSet_false_lookup]
  by_cases h : k ∈ objKeys hs
  · simp [h]
  · rw [if_neg h, if_neg h, foldl_objSet_true_lookup]
    by_cases h2 : k ∈ objKeys rs
    · simp [h2]
    · simp [h2, objLookup]

/-- The key list of the flag object is duplicate-free. -/
theorem hbDeleteFlags_nodup (rs hs : List (String × String)) :
    (objKeys (hbDeleteFlags rs hs)).Nodup := by
  unfold hbDeleteFlags
  have base : ∀ (ks : List String) (o : List (String × Bool)),
      (objKeys o).Nodup →
      (objKeys (ks.foldl (fun o k => objSet o k true) o)).Nodup := by
    intro ks
    induction ks with
    | nil => intro o h; simpa using h
    | cons k0 ks' ih =>
      intro o h
      simp only [List.foldl_cons]
      exact ih _ (objKeys_objSet_nodup o k0 true h)
  have second : ∀ (l : List (String × String)) (o : List (String × Bool)),
      (objKeys o).Nodup →
      (objKeys (l.foldl (fun o kv => objSet o kv.1 false) o)).Nodup := by
    intro l
    induction l with
    | nil => intro o h; simpa using h
    | cons kv l' ih =>
      intro o h
      simp only [List.foldl_cons]
      exact ih _ (objKeys_objSet_nodup o kv.1 false h)
  exact second hs _ (base (objKeys rs) [] (by simp [objKeys]))

/-- The events emitted by the deletion loop are exactly the keys flagged
true, in flag order, each as an onStateChange with null hash and data. -/
theorem hbDeletePhase_events (rs : List (String × String)) (flags : List (String × Bool)) :
    (hbDeletePhase rs flags).1 =
      (flags.filter (fun kv => kv.2)).map
        (fun kv => (kv.1, (none : Option String), (none : Option String))) := by
  suffices h : ∀ (acc : List (String × Option String × Option String))
      (rs0 : List (String × String)),
      (flags.foldl
        (fun acc kv =>
          if kv.2 then (acc.1 ++ [(kv.1, none, none)], objDelete acc.2 kv.1) else acc)
        (acc, rs0)).1 =
        acc ++ (flags.filter (fun kv => kv.2)).map
          (fun kv => (kv.1, (none : Option String), (none : Option String))) by
    simpa [hbDeletePhase] using h [] rs
  induction flags with
  | nil => intro acc rs0; simp
  | cons kv flags' ih =>
    intro acc rs0
    by_cases h : kv.2 = true
    · simp [h, ih, List.filter_cons]
    · simp [h, ih, List.filter_cons]

/-- The remote state produced by the deletion loop is the fold of the
deletions alone. -/
theorem hbDeletePhase_state (rs : List (String × String)) (flags : List (String × Bool)) :
    (hbDeletePhase rs flags).2 =
      flags.foldl (fun rs0 kv => if kv.2 then objDelete rs0 kv.1 else rs0) rs := by
  suffices h : ∀ (acc : List (String × Option String × Option String))
      (rs0 : List (String × String)),
      (flags.foldl
        (fun acc kv =>
          if kv.2 then (acc.1 ++ [(kv.1, none, none)], objDelete acc.2 kv.1) else acc)
        (acc, rs0)).2 =
        flags.foldl (fun rs0 kv => if kv.2 then objDelete rs0 kv.1 else rs0) rs0 by
    simpa [hbDeletePhase] using h [] rs
  induction flags with
  | nil => intro acc rs0; simp
  | cons kv flags' ih =>
    intro acc rs0
    by_cases h : kv.2 = true
    · simp [h, ih]
    · simp [h, ih]

/-- Lookup after the deletion fold: a key flagged true is gone, any other
key is untouched. -/
theorem deleteFold_lookup (flags : List (String × Bool)) (rs : List (String × String))
    (k : String) (nd : (objKeys rs).Nodup) :
    objLookup (flags.foldl (fun rs0 kv => if kv.2 then objDelete rs0 kv.1 else rs0) rs) k =
      if (k, true) ∈ flags then none else objLookup rs k := by
  induction flags generalizing rs with
  | nil => simp
  | cons kv flags' ih =>
    by_cases hb : kv.2 = true
    · simp only [List.foldl_cons]
      rw [if_pos hb]
      rw [ih (objDelete rs kv.1) (List.Nodup.sublist (objKeys_objDelete_sublist rs kv.1) nd)]
      by_cases hm : (k, true) ∈ flags'
      · rw [if_pos hm, if_pos (List.mem_cons_of_mem _ hm)]
      · rw [if_neg hm, objLookup_objDelete rs kv.1 k nd]
        by_cases he : kv.1 = k
        · have hkv : (k, true) = kv := by
            rw [← he, ← hb]
          rw [if_pos he, if_pos (List.mem_cons.mpr (Or.inl hkv))]
        · have hnot : ¬ (k, true) ∈ (kv :: flags') := by
            intro hmem
            rcases List.mem_cons.mp hmem with hEq | hmem'
            · exact he (congrArg Prod.fst hEq).symm
            · exact hm hmem'
          rw [if_neg he, if_neg hnot]
    · simp only [List.foldl_cons]
      rw [if_neg hb]
      rw [ih rs nd]
      by_cases hm : (k, true) ∈ flags'
      · rw [if_pos hm, if_pos (List.mem_cons_of_mem _ hm)]
      · have hnot : ¬ (k, true) ∈ (kv :: flags') := by
          intro hmem
          rcases List.mem_cons.mp hmem with hEq | hmem'
          · exact hb (congrArg Prod.snd hEq).symm
          · exact hm hmem'
        rw [if_neg hm, if_neg hnot]

/-- The pull keys are a sublist of the hashset keys, and a key is pulled
exactly when some hashset entry for it differs from the tracked hash. -/
theorem hbPullKeys_spec (rs hs : List (String × String)) :
    (hbPullKeys rs hs).Sublist (objKeys hs) ∧
    (∀ k, k ∈ hbPullKeys rs hs ↔ ∃ h0, (k, h0) ∈ hs ∧ ¬ objLookup rs k = some h0) := by
  suffices h : ∀ acc, ∃ t,
      hs.foldl
        (fun acc kv => if objLookup rs kv.1 ≠ some kv.2 then acc ++ [kv.1] else acc) acc
        = acc ++ t ∧
      t.Sublist (objKeys hs) ∧
      (∀ k, k ∈ t ↔ ∃ h0, (k, h0) ∈ hs ∧ ¬ objLookup rs k = some h0) by
    obtain ⟨t, ht, hsub, hmem⟩ := h []
    have heq : hbPullKeys rs hs = t := by simpa [hbPullKeys] using ht
    rw [heq]
    exact ⟨hsub, hmem⟩
  induction hs with
  | nil =>
    intro acc
    exact ⟨[], by simp, by simp [objKeys], by simp⟩
  | cons kv hs' ih =>
    intro acc
    simp only [List.foldl_cons]
    by_cases h : objLookup rs kv.1 = some kv.2
    · rw [if_neg (fun hne => hne h)]
      obtain ⟨t, ht, hsub, hmem⟩ := ih acc
      refine ⟨t, ht, ?_, ?_⟩
      · have hkeys : objKeys (kv :: hs') = kv.1 :: objKeys hs' := by simp [objKeys]
        rw [hkeys]
        exact List.Sublist.cons kv.1 hsub
      · intro k
        rw [hmem k]
        constructor
        · rintro ⟨h0, hm, hne⟩
          exact ⟨h0, List.mem_cons_of_mem _ hm, hne⟩
        · rintro ⟨h0, hm, hne⟩
          rcases List.mem_cons.mp hm with hEq | hm2
          · exfalso
            apply hne
            have hk : k = kv.1 := congrArg Prod.fst hEq
            have hh : h0 = kv.2 := congrArg Prod.snd hEq
            rw [hk, hh]
            exact h
          · exact ⟨h0, hm2, hne⟩
    · rw [if_pos h]
      obtain ⟨t, ht, hsub, hmem⟩ := ih (acc ++ [kv.1])
      refine ⟨kv.1 :: t, by rw [ht]; simp, ?_, ?_⟩
      · have hkeys : objKeys (kv :: hs') = kv.1 :: objKeys hs' := by simp [objKeys]
        rw [hkeys]
        exact List.Sublist.cons₂ kv.1 hsub
      · intro k
        rw [List.mem_cons, hmem k]
        constructor
        · rintro (hEq | ⟨h0, hm, hne⟩)
          · subst hEq
            refine ⟨kv.2, ?_, h⟩
            rw [Prod.mk.eta]
            exact List.mem_cons_self kv hs'
          · exact ⟨h0, List.mem_cons_of_mem _ hm, hne⟩
        · rintro ⟨h0, hm, hne⟩
          rcases List.mem_cons.mp hm with hEq | hm2
          · exact Or.inl (congrArg Prod.fst hEq)
          · exact Or.inr ⟨h0, hm2, hne⟩

/-- With duplicate-free hashset keys, the pull keys are duplicate-free. -/
theorem hbPullKeys_nodup (rs hs : List (String × String))
    (nd : (objKeys hs).Nodup) : (hbPullKeys rs hs).Nodup :=
  List.Nodup.sublist (hbPullKeys_spec rs hs).1 nd

/-- The events emitted by the pull loop: one onStateChange per pulled key
whose GET reply arrived with status 200, carrying the reply hash and data,
in pull order. -/
theorem hbPullPhase_events (g : String → Option GetReplyBody)
    (rs : List (String × String)) (ks : List String) :
    (hbPullPhase g rs ks).1 =
      ks.filterMap (fun k =>
        match g k with
        | some body =>
          if body.statusCode = 200 then some (k, some body.hash, some body.data) else none
        | none => none) := by
  suffices h : ∀ (acc : List (String × Option String × Option String))
      (rs0 : List (String × String)),
      (ks.foldl
        (fun acc k =>
          match g k with
          | some body =>
            if body.statusCode = 200 then
              (acc.1 ++ [(k, some body.hash, some body.data)], objSet acc.2 k body.hash)
            else acc
          | none => acc)
        (acc, rs0)).1 =
        acc ++ ks.filterMap (fun k =>
          match g k with
          | some body =>
            if body.statusCode = 200 then some (k, some body.hash, some body.data) else none
          | none => none) by
    simpa [hbPullPhase] using h [] rs
  induction ks with
  | nil => intro acc rs0; simp
  | cons k0 ks' ih =>
    intro acc rs0
    cases hg : g k0 with
    | none => simp [hg, ih, List.filterMap_cons]
    | some body =>
      by_cases hsc : body.statusCode = 200
      · simp [hg, hsc, ih, List.filterMap_cons]
      · simp [hg, hsc, ih, List.filterMap_cons]

/-- The remote state produced by the pull loop is the fold of the state
updates alone. -/
theorem hbPullPhase_state (g : String → Option GetReplyBody)
    (rs : List (String × String)) (ks : List String) :
    (hbPullPhase g rs ks).2 =
      ks.foldl
        (fun rs0 k =>
          match g k with
          | some body => if body.statusCode = 200 then objSet rs0 k body.hash else rs0
          | none => rs0)
        rs := by
  suffices h : ∀ (acc : List (String × Option String × Option String))
      (rs0 : List (String × String)),
      (ks.foldl
        (fun acc k =>
          match g k with
          | some body =>
            if body.statusCode = 200 then
              (acc.1 ++ [(k, some body.hash, some body.data)], objSet acc.2 k body.hash)
            else acc
          | none => acc)
        (acc, rs0)).2 =
        ks.foldl
          (fun rs0 k =>
            match g k with
            | some body => if body.statusCode = 200 then objSet rs0 k body.hash else rs0
            | none => rs0)
          rs0 by
    simpa [hbPullPhase] using h [] rs
  induction ks with
  | nil => intro acc rs0; simp
  | cons k0 ks' ih =>
    intro acc rs0
    cases hg : g k0 with
    | none => simp [hg, ih]
    | some body =>
      by_cases hsc : body.statusCode = 200
      · simp [hg, hsc, ih]
      · simp [hg, hsc, ih]

/-- Lookup after the pull fold: a pulled key reflects its GET reply, any
other key is untouched. -/
theorem pullFold_lookup (g : String → Option GetReplyBody) (ks : List String)
    (rs : List (String × String)) (k : String) (nd : ks.Nodup) :
    objLookup (ks.foldl
      (fun rs0 k =>
        match g k with
        | some body => if body.statusCode = 200 then objSet rs0 k body.hash else rs0
        | none => rs0)
      rs) k =
      if k ∈ ks then pullResultLookup g rs k else objLookup rs k := by
  induction ks generalizing rs with
  | nil => simp
  | cons k0 ks' ih =>
    have nd' : ks'.Nodup := (List.nodup_cons.mp nd).2
    have hk0 : ¬ k0 ∈ ks' := (List.nodup_cons.mp nd).1
    simp only [List.foldl_cons]
    cases hg : g k0 with
    | none =>
      simp only [hg]
      rw [ih rs nd']
      by_cases he : k0 = k
      · subst he
        rw [if_neg hk0, if_pos (List.mem_cons_self k0 ks')]
        simp [pullResultLookup, hg]
      · by_cases hm : k ∈ ks'
        · rw [if_pos hm, if_pos (List.mem_cons_of_mem _ hm)]
        · have hnot : ¬ k ∈ (k0 :: ks') := by
            rw [List.mem_cons]
            rintro (hEq | hm2)
            · exact he hEq.symm
            · exact hm hm2
          rw [if_neg hm, if_neg hnot]
    | some body =>
      by_cases hsc : body.statusCode = 200
      · simp only [hg]
        rw [if_pos hsc]
        rw [ih (objSet rs k0 body.hash) nd']
        by_cases he : k0 = k
        · subst he
          rw [if_neg hk0, objLookup_objSet, if_pos rfl, if_pos (List.mem_cons_self k0 ks')]
          simp [pullResultLookup, hg, hsc]
        · by_cases hm : k ∈ ks'
          · rw [if_pos hm, if_pos (List.mem_cons_of_mem _ hm)]
            cases hgk : g k with
            | none => simp [pullResultLookup, hgk, objLookup_objSet, he]
            | some b2 =>
              by_cases hb2 : b2.statusCode = 200
              · simp [pullResultLookup, hgk, hb2]
              · simp [pullResultLookup, hgk, hb2, objLookup_objSet, he]
          · have hnot : ¬ k ∈ (k0 :: ks') := by
              rw [List.mem_cons]
              rintro (hEq | hm2)
              · exact he hEq.symm
              · exact hm hm2
            rw [if_neg hm, if_neg hnot, objLookup_objSet, if_neg he]
      · simp only [hg]
        rw [if_neg hsc]
        rw [ih rs nd']
        by_cases he : k0 = k
        · subst he
          rw [if_neg hk0, if_pos (List.mem_cons_self k0 ks')]
          simp [pullResultLookup, hg, hsc]
        · by_cases hm : k ∈ ks'
          · rw [if_pos hm, if_pos (List.mem_cons_of_mem _ hm)]
          · have hnot : ¬ k ∈ (k0 :: ks') := by
              rw [List.mem_cons]
              rintro (hEq | hm2)
              · exact he hEq.symm
              · exact hm hm2
            rw [if_neg hm, if_neg hnot]

/-! ## C3: heartbeat reconciliation -/

/-- C3: for a known peer whose heartbeat carries a hashset, every tracked
remote key absent from the hashset yields an onStateChange(peer, key, null,
null) and is dropped from remoteState, and every hashset key whose hash
differs from the tracked one is pulled: a 200 reply yields an
onStateChange(peer, key, hash, data) and sets remoteState[key] to the reply
hash, while a non-200 reply or a transport exception leaves remoteState[key]
unchanged. -/
theorem C3_heartbeat_reconciliation (rs hs : List (String × String))
    (g : String → Option GetReplyBody)
    (ndr : (objKeys rs).Nodup) (ndh : (objKeys hs).Nodup) :
    (∀ k, k ∈ objKeys rs → ¬ k ∈ objKeys hs →
      ((k, (none : Option String), (none : Option String)) ∈ (onHeartbeatReconcile rs hs g).1 ∧
        objLookup (onHeartbeatReconcile rs hs g).2 k = none)) ∧
    (∀ k h0, (k, h0) ∈ hs → ¬ objLookup rs k = some h0 →
      ((∀ body, g k = some body → body.statusCode = 200 →
          ((k, some body.hash, some body.data) ∈ (onHeartbeatReconcile rs hs g).1 ∧
            objLookup (onHeartbeatReconcile rs hs g).2 k = some body.hash)) ∧
        (∀ body, g k = some body → ¬ body.statusCode = 200 →
          objLookup (onHeartbeatReconcile rs hs g).2 k = objLookup rs k) ∧
        (g k = none →
          objLookup (onHeartbeatReconcile rs hs g).2 k = objLookup rs k))) := by
  simp only [onHeartbeatReconcile]
  have hflagsnd := hbDeleteFlags_nodup rs hs
  have hfl := hbDeleteFlags_lookup rs hs
  have hdel : ∀ k, objLookup (hbDeletePhase rs (hbDeleteFlags rs hs)).2 k =
      if (k, true) ∈ hbDeleteFlags rs hs then none else objLookup rs k := by
    intro k
    rw [hbDeletePhase_state]
    exact deleteFold_lookup _ rs k ndr
  have hmemtrue : ∀ k,
      ((k, true) ∈ hbDeleteFlags rs hs ↔ (k ∈ objKeys rs ∧ ¬ k ∈ objKeys hs)) := by
    intro k
    constructor
    · intro hmem
      have hlk := objLookup_eq_some_of_mem_nodup hmem hflagsnd
      rw [hfl k] at hlk
      by_cases h1 : k ∈ objKeys hs
      · rw [if_pos h1] at hlk
        exact absurd hlk (by simp)
      · rw [if_neg h1] at hlk
        by_cases h2 : k ∈ objKeys rs
        · exact ⟨h2, h1⟩
        · rw [if_neg h2] at hlk
          exact absurd hlk (by simp)
    · rintro ⟨h2, h1⟩
      apply mem_of_objLookup_eq_some
      rw [hfl k, if_neg h1, if_pos h2]
  have hpull := hbPullKeys_spec rs hs
  have hpullnd := hbPullKeys_nodup rs hs ndh
  have hstate : ∀ k,
      objLookup (hbPullPhase g (hbDeletePhase rs (hbDeleteFlags rs hs)).2
        (hbPullKeys rs hs)).2 k =
      if k ∈ hbPullKeys rs hs
      then pullResultLookup g (hbDeletePhase rs (hbDeleteFlags rs hs)).2 k
      else objLookup (hbDeletePhase rs (hbDeleteFlags rs hs)).2 k := by
    intro k
    rw [hbPullPhase_state]
    exact pullFold_lookup g _ _ k hpullnd
  constructor
  · intro k hkrs hkhs
    have hmemF : (k, true) ∈ hbDeleteFlags rs hs := (hmemtrue k).mpr ⟨hkrs, hkhs⟩
    constructor
    · apply List.mem_append_left
      rw [hbDeletePhase_events]
      apply List.mem_map.mpr
      exact ⟨(k, true), List.mem_filter.mpr ⟨hmemF, rfl⟩, rfl⟩
    · have hnotpull : ¬ k ∈ hbPullKeys rs hs := fun hk =>
        hkhs (List.Sublist.subset hpull.1 hk)
      rw [hstate k, if_neg hnotpull, hdel k, if_pos hmemF]
  · intro k h0 hmem hne
    have hkhs : k ∈ objKeys hs := by
      simpa [objKeys] using List.mem_map_of_mem Prod.fst hmem
    have hnotF : ¬ (k, true) ∈ hbDeleteFlags rs hs := fun hmF =>
      ((hmemtrue k).mp hmF).2 hkhs
    have hrs1 : objLookup (hbDeletePhase rs (hbDeleteFlags rs hs)).2 k = objLookup rs k := by
      rw [hdel k, if_neg hnotF]
    have hkpull : k ∈ hbPullKeys rs hs := ((hpull.2) k).mpr ⟨h0, hmem, hne⟩
    refine ⟨?_, ?_, ?_⟩
    · intro body hg hsc
      constructor
      · apply List.mem_append_right
        rw [hbPullPhase_events]
        apply List.mem_filterMap.mpr
        exact ⟨k, hkpull, by simp [hg, hsc]⟩
      · rw [hstate k, if_pos hkpull]
        simp [pullResultLookup, hg, hsc]
    · intro body hg hsc
      rw [hstate k, if_pos hkpull]
      simp [pullResultLookup, hg, hsc, hrs1]
    · intro hg
      rw [hstate k, if_pos hkpull]
      simp [pullResultLookup, hg, hrs1]

/-- C3 witness: the literal heartbeat-reconciliation scenario.  With tracked
remoteState link-L1 H0 and an incoming hashset link-L1 H1, the pull succeeds
with a 200 reply and the engine reports the state change and stores H1. -/
theorem C3_heartbeat_reconciliation_witness :
    (objKeys c3Rs).Nodup ∧ (objKeys c3Hs).Nodup ∧
    ((("link-L1" : String), some ("H1" : String), some ("DATA-L1" : String)) ∈
        (onHeartbeatReconcile c3Rs c3Hs c3Reply).1 ∧
      objLookup (onHeartbeatReconcile c3Rs c3Hs c3Reply).2 "link-L1" = some "H1") := by
  refine ⟨by decide, by decide, ?_⟩
  have h := C3_heartbeat_reconciliation c3Rs c3Hs c3Reply (by decide) (by decide)
  have h2 := ((h.2 "link-L1" "H1" (by decide) (by decide)).1
    { statusCode := 200, hash := "H1", data := "DATA-L1" } (by decide) (by decide))
  exact ⟨h2.1, h2.2⟩

/-! ## Helper lemma on the certificate-request target -/

/-- The member-completion alert is raised exactly for requests owned by a
member site. -/
theorem refTarget_member_iff (req : CertRequestRow) (info : RefTargetInfo)
    (h : refTarget req = some info) :
    (info.alertMemberCompletion = true ↔ info.table = RefTable.memberSites) := by
  unfold refTarget at h
  repeat' split at h
  all_goals first
    | exact Option.noConfusion h
    | (injection h with h2; subst h2; simp [mkRefTarget])

/-! ## C4: certificate finalization on secret arrival -/

/-- C4: when the watched secret resolves an existing certificate request
whose owning entity row exists, secretAdded (in one transaction) appends a
TlsCertificates row whose SignedBy is the skx-issuerlink annotation unless
that is the literal root (then null), rewrites the owning table so the
entity row carries Lifecycle ready and Certificate = the new TlsCertificate
id, leaves every other table unchanged, deletes the certificate request, and
schedules CompleteMember after the commit exactly when the owning entity is
a member site. -/
theorem C4_secret_finalization (dblink : String) (secret : SecretInfo)
    (certStatus : CertStatus) (db : ComposeDb) (req : CertRequestRow)
    (info : RefTargetInfo) (row : EntityRow)
    (h1 : db.certRequests.filter (fun r => decide (r.id = dblink)) = [req])
    (h2 : refTarget req = some info)
    (h3 : (db.tables info.table).find? (fun row => decide (row.id = info.refId)) = some row) :
    (secretAdded dblink secret certStatus db).db.tlsCertificates =
      db.tlsCertificates ++
        [{ id := dblink, isCA := info.isCA, objectName := secret.name,
           expiration := certStatus.notAfter, renewalTime := certStatus.renewalTime,
           label := refLabel info.table ++ ": " ++ row.name,
           signedBy := if secret.issuerLink = some "root" then none
                       else secret.issuerLink }] ∧
    (secretAdded dblink secret certStatus db).db.tables info.table =
      (db.tables info.table).map (fun r =>
        if r.id = info.refId then { r with certificate := some dblink, lifecycle := "ready" }
        else r) ∧
    (∀ t, ¬ t = info.table →
      (secretAdded dblink secret certStatus db).db.tables t = db.tables t) ∧
    (secretAdded dblink secret certStatus db).db.certRequests =
      db.certRequests.filter (fun r => decide (¬ r.id = dblink)) ∧
    (ComposeEffect.completeMember info.refId ∈
        (secretAdded dblink secret certStatus db).postCommitEffects ↔
      info.table = RefTable.memberSites) := by
  have hres : secretAdded dblink secret certStatus db =
      { db :=
          { certRequests := db.certRequests.filter (fun r => decide (¬ r.id = dblink)),
            tlsCertificates := db.tlsCertificates ++
              [{ id := dblink, isCA := info.isCA, objectName := secret.name,
                 expiration := certStatus.notAfter, renewalTime := certStatus.renewalTime,
                 label := refLabel info.table ++ ": " ++ row.name,
                 signedBy := if secret.issuerLink = some "root" then none
                             else secret.issuerLink }],
            tables := fun t =>
              if t = info.table then
                (db.tables t).map (fun r =>
                  if r.id = info.refId then
                    { r with certificate := some dblink, lifecycle := "ready" }
                  else r)
              else db.tables t },
        inTxEffects :=
          (if info.isCA then [ComposeEffect.applyIssuer secret.name dblink] else []) ++
          (if info.alertSiteCertChanged then
            [ComposeEffect.siteLifecycleChanged info.refId "ready"] else []),
        postCommitEffects :=
          (if info.alertSiteCertChanged then [ComposeEffect.siteCertificateChanged dblink]
           else if info.alertAccessCertChanged then
             [ComposeEffect.accessCertificateChanged dblink]
           else []) ++
          (if info.alertMemberCompletion then [ComposeEffect.completeMember info.refId]
           else []) } := by
    unfold secretAdded
    rw [h1]
    simp only [h2, h3]
  refine ⟨?_, ?_, ?_, ?_, ?_⟩
  · rw [hres]
  · rw [hres]
    simp
  · intro t ht
    rw [hres]
    simp [ht]
  · rw [hres]
  · rw [hres]
    have hm := refTarget_member_iff req info h2
    simp only []
    constructor
    · intro hmem
      rcases List.mem_append.mp hmem with hleft | hright
      · exfalso
        by_cases hs : info.alertSiteCertChanged = true
        · rw [if_pos hs] at hleft
          simp at hleft
        · rw [if_neg hs] at hleft
          by_cases ha : info.alertAccessCertChanged = true
          · rw [if_pos ha] at hleft
            simp at hleft
          · rw [if_neg ha] at hleft
            simp at hleft
      · by_cases hmc : info.alertMemberCompletion = true
        · exact hm.mp hmc
        · rw [if_neg hmc] at hright
          simp at hright
    · intro htab
      apply List.mem_append_right
      rw [if_pos (hm.mpr htab)]
      exact List.mem_singleton.mpr rfl

/-- C4 witness: a concrete member-site certificate request finalized by its
secret; the TlsCertificates row is inserted with the issuer link, the
request is deleted, and CompleteMember is scheduled after the commit. -/
theorem C4_secret_finalization_witness :
    (c4Db.certRequests.filter (fun r => decide (r.id = "req1")) = [c4Req]) ∧
    (refTarget c4Req = some c4Info) ∧
    ((c4Db.tables c4Info.table).find? (fun row => decide (row.id = c4Info.refId)) =
      some c4Row) ∧
    (secretAdded "req1" c4Secret c4Status c4Db).db.tlsCertificates =
      [{ id := "req1", isCA := false, objectName := "skx-member-req1",
         expiration := some 1000, renewalTime := some 800,
         label := "Member Site: member-1", signedBy := some "ca-77" }] ∧
    (secretAdded "req1" c4Secret c4Status c4Db).db.certRequests = [] ∧
    ComposeEffect.completeMember "m1" ∈
      (secretAdded "req1" c4Secret c4Status c4Db).postCommitEffects := by
  have h := C4_secret_finalization "req1" c4Secret c4Status c4Db c4Req c4Info c4Row
    (by decide) (by decide) (by decide)
  refine ⟨by decide, by decide, by decide, ?_, ?_, ?_⟩
  · exact h.1.trans (by decide)
  · exact (h.2.2.2.1).trans (by decide)
  · exact (h.2.2.2.2).mpr rfl

/-! ## C6: template resolution scenario -/

/-- C6: the second half of the claimed scenario is false: an unresolved dot
path renders the literal UNDEFINED[.missing], not the string undefined,
because the UNDEFINED[...] placeholder returned by Token._value is a
non-empty (hence truthy) string. -/
theorem C6_counterexample :
    Expand "\x7b\x7b .missing \x7d\x7d".toList [] (JVal.jobj []) [] =
      Except.ok ("UNDEFINED[.missing]".toList, [".missing".toList]) ∧
    "UNDEFINED[.missing]".toList ≠ "undefined".toList := by
  exact ⟨rfl, by decide⟩

/-- C6 (amended): the if/else template expands to P-svc with an empty
unresolvable set, and Expand on the unresolved dot path returns the literal
UNDEFINED[.missing] with .missing recorded as unresolvable. -/
theorem C6_template_resolution :
    Expand
      "\x7b\x7b if $site.prod \x7d\x7dP\x7b\x7b else \x7d\x7dD\x7b\x7b end \x7d\x7d-\x7b\x7b .name \x7d\x7d".toList
      [("name".toList, JVal.jstr "svc".toList)]
      (JVal.jobj [("site".toList, JVal.jobj [("prod".toList, JVal.jbool true)])])
      [] = Except.ok ("P-svc".toList, []) ∧
    Expand "\x7b\x7b .missing \x7d\x7d".toList [] (JVal.jobj []) [] =
      Except.ok ("UNDEFINED[.missing]".toList, [".missing".toList]) := by
  exact ⟨rfl, rfl⟩

/-! ## C10: resolved but falsy variables -/

/-- C10: a variable token whose path resolves (in the local scope for a dot
path, in the remote scope for a dollar path) to a falsy value renders the
literal string undefined and leaves the unresolvable set unchanged. -/
theorem C10_falsy_variable (content : List Char) (ld : List (List Char × JVal))
    (rd : JVal) (u : List (List Char)) (v : JVal)
    (hres : (∃ p, content = '.' :: p ∧ p ∈ ld.map Prod.fst ∧ jvalField ld p = v) ∨
            (∃ p, content = '$' :: p ∧ remoteWalk (splitDot p) rd = Except.ok (some v)))
    (hfalsy : jsTruthy v = false) :
    nodeExpand (TNode.varN content TNode.nilN) ld rd u =
      Except.ok ("undefined".toList, u) := by
  have hval : tokenValue content ld rd u = Except.ok (v, u) := by
    rcases hres with ⟨p, hc, hmem, hfield⟩ | ⟨p, hc, hwalk⟩
    · subst hc
      simp only [tokenValue, List.drop_succ_cons, List.drop_zero]
      rw [if_pos hmem, hfield]
    · subst hc
      simp only [tokenValue, List.drop_succ_cons, List.drop_zero]
      rw [hwalk]
  unfold nodeExpand
  rw [hval]
  simp [hfalsy, nodeExpand]

/-- C10 witness: the local variable flag holds the falsy value false; the
token .flag resolves yet renders undefined with the unresolvable set left
empty. -/
theorem C10_falsy_variable_witness :
    ((∃ p, (".flag".toList : List Char) = '.' :: p ∧
        p ∈ ([("flag".toList, JVal.jbool false)].map Prod.fst) ∧
        jvalField [("flag".toList, JVal.jbool false)] p = JVal.jbool false) ∨
      (∃ p, (".flag".toList : List Char) = '$' :: p ∧
        remoteWalk (splitDot p) (JVal.jobj []) = Except.ok (some (JVal.jbool false)))) ∧
    jsTruthy (JVal.jbool false) = false ∧
    nodeExpand (TNode.varN ".flag".toList TNode.nilN) [("flag".toList, JVal.jbool false)]
      (JVal.jobj []) [] = Except.ok ("undefined".toList, []) := by
  refine ⟨Or.inl ⟨"flag".toList, rfl, by decide, rfl⟩, rfl, ?_⟩
  exact C10_falsy_variable ".flag".toList [("flag".toList, JVal.jbool false)] (JVal.jobj [])
    [] (JVal.jbool false) (Or.inl ⟨"flag".toList, rfl, by decide, rfl⟩) rfl
